import Mathlib

/-!
Verification of the sonar node-telemetry agent's core algorithms against its
natural-language specification.  The Rust sources (`output.rs`, `amd.rs`,
`procfs.rs`) are shallowly embedded below: machine integers (`u64`, `usize`)
become `Nat`, `f64` percentage arithmetic is modelled over `ℚ` (all claim-level
values are exact small rationals, and `f64::round` agrees with rational
rounding on the non-negative values that occur), and fallible operations
return `Option` or `Except String`.
-/

namespace Sonar

/-! ## Basic string helpers (models of the Rust std string operations used) -/

/-- Model of Rust `usize::from_str` as used via `str::parse::<usize>()`: an
optional leading `+`, then one or more ASCII digits.  (The 64-bit overflow
rejection of the Rust parser is not modelled; no claim exercises it.) -/
def parseUsize (cs : List Char) : Option Nat :=
  let cs := match cs with
    | '+' :: r => r
    | r => r
  if cs ≠ [] ∧ cs.all (·.isDigit) then
    some (cs.foldl (fun a c => a * 10 + (c.toNat - 48)) 0)
  else none

/-- ASCII whitespace, as recognised by Rust `split_ascii_whitespace`. -/
def isWsChar (c : Char) : Bool :=
  c = ' ' || c = '\t' || c = '\n' || c = '\x0d' || c = '\x0c'

/-- Accumulator-passing worker for `splitWs`: `cur` is the reversed current
word. -/
def splitWsAux : List Char → List Char → List (List Char)
  | [], cur => if cur = [] then [] else [cur.reverse]
  | c :: rest, cur =>
    if isWsChar c then
      if cur = [] then splitWsAux rest [] else cur.reverse :: splitWsAux rest []
    else splitWsAux rest (c :: cur)

/-- Model of Rust `str::split_ascii_whitespace` (and, on the ASCII inputs that
occur here, of `str::split_whitespace`): maximal runs of non-whitespace. -/
def splitWs (cs : List Char) : List (List Char) :=
  splitWsAux cs []

/-- Model of Rust `str::split('\n')`: all chunks are kept, including empty
ones; splitting the empty string yields one empty chunk. -/
def splitNl (cs : List Char) : List (List Char) :=
  match cs with
  | [] => [[]]
  | d :: rest =>
    let r := splitNl rest
    if d = '\n' then [] :: r else (d :: r.headD []) :: r.tail

/-- Model of Rust `str::lines()`: split at `'\n'`, drop a final empty chunk
(the final line ending is optional), and strip one trailing `'\x0d'` from each
line. -/
def rustLines (cs : List Char) : List (List Char) :=
  let parts := splitNl cs
  let parts := if parts.getLast? = some [] then parts.dropLast else parts
  parts.map (fun l => if l.getLast? = some '\x0d' then l.dropLast else l)

/-- Model of Rust `str::starts_with` on a literal pattern. -/
def startsWithS (pat : String) (cs : List Char) : Bool :=
  pat.data.isPrefixOf cs

/-- Model of Rust `str::contains` on a literal substring pattern. -/
def strContains (cs : List Char) (pat : String) : Bool :=
  (List.range (cs.length + 1)).any (fun i => pat.data.isPrefixOf (cs.drop i))

/-! ## Base-45 packed array encoding (`output.rs`) -/

/-- `BASE` from `output.rs`. -/
def BASE : Nat := 45

/-- `INITIAL` alphabet from `output.rs` (braces written as escapes). -/
def INITIAL : List Char := "()\x7b\x7d[]<>+-abcdefghijklmnopqrstuvwxyz!@#$%^&*_".data

/-- `SUBSEQUENT` alphabet from `output.rs` (apostrophe written as an escape). -/
def SUBSEQUENT : List Char := "0123456789ABCDEFGHIJKLMNOPQRSTUVWXYZ~|\x27;:.?/`".data

/-- The `while x > 0` loop of `encode_u64_base45el`: little-endian digits of
`x` drawn from `SUBSEQUENT`, no digits for zero. -/
def subsequentDigits (x : Nat) : List Char :=
  if x = 0 then []
  else SUBSEQUENT.getD (x % BASE) ' ' :: subsequentDigits (x / BASE)
termination_by x
decreasing_by
  exact Nat.div_lt_self (Nat.pos_of_ne_zero (by assumption)) (by decide)

/-- `encode_u64_base45el` from `output.rs`: first digit from `INITIAL`, then
the remaining little-endian base-45 digits from `SUBSEQUENT`. -/
def encodeU64Base45el (x : Nat) : List Char :=
  INITIAL.getD (x % BASE) ' ' :: subsequentDigits (x / BASE)

/-- `encode_cpu_secs_base45el` from `output.rs`.  The Rust function panics on
an empty array ("Must have a non-empty array"); that unreachable case is
modelled as the empty string.  `reduce(min)` is the fold of `min` over the
array with its head as the initial accumulator. -/
def encodeCpuSecsBase45el (cpuSecs : List Nat) : List Char :=
  match cpuSecs with
  | [] => []
  | y :: ys =>
    let base := ys.foldl min y
    (y :: ys).foldl (fun s x => s ++ encodeU64Base45el (x - base))
      (encodeU64Base45el base)

/-! Spec-side definitions for the base-45 claims: the little-endian digit
list of a number (at least one digit), and the decoder described by the
round-trip claim (split at `INITIAL` characters, read the residual characters
as `SUBSEQUENT` digits, add the leading base back to each later value). -/

/-- Little-endian base-45 digit values of `x`, with at least one digit. -/
def natDigits45 (x : Nat) : List Nat :=
  if x < BASE then [x]
  else x % BASE :: natDigits45 (x / BASE)
termination_by x
decreasing_by
  exact Nat.div_lt_self (by simp only [BASE] at *; omega) (by decide)

/-- Value of a little-endian `SUBSEQUENT` digit string. -/
def subsValue (cs : List Char) : Nat :=
  match cs with
  | [] => 0
  | c :: r => SUBSEQUENT.indexOf c + BASE * subsValue r

/-- Value of one encoded chunk: an `INITIAL` digit followed by `SUBSEQUENT`
digits, little-endian. -/
def chunkVal (c : Char) (sub : List Char) : Nat :=
  INITIAL.indexOf c + BASE * subsValue sub

/-- Split an encoded string into chunks, each beginning with an `INITIAL`
character followed by a maximal run of non-`INITIAL` characters.  Fails if
the string does not start with an `INITIAL` character. -/
def chunks45 (cs : List Char) : Option (List (Char × List Char)) :=
  match cs with
  | [] => some []
  | c :: rest =>
    if INITIAL.contains c then
      (chunks45 (rest.dropWhile (fun d => !INITIAL.contains d))).map
        (fun tl => (c, rest.takeWhile (fun d => !INITIAL.contains d)) :: tl)
    else none
termination_by cs.length
decreasing_by
  simp only [List.length_cons]
  refine Nat.lt_succ_of_le ?_
  have hgen : ∀ (p : Char → Bool) (l : List Char),
      (l.dropWhile p).length ≤ l.length := by
    intro p l
    induction l with
    | nil => simp [List.dropWhile]
    | cons d r ih =>
      simp only [List.dropWhile]
      cases hpd : p d
      · simp
      · simp only []
        exact Nat.le_succ_of_le ih
  exact hgen _ _

/-- The decoder described by the round-trip claim: split at `INITIAL`
characters, value each chunk, and add the leading base value back to each
subsequent value. -/
def decodeBase45 (cs : List Char) : Option (List Nat) :=
  match chunks45 cs with
  | none => none
  | some [] => none
  | some ((c, sub) :: rest) =>
    let base := chunkVal c sub
    some (rest.map (fun p => base + chunkVal p.1 p.2))

/-! ## Output model (`output.rs`): values, CSV encoder, JSON encoder

`Value`, `Array` and `Object` from `output.rs`.  Vectors are modelled by the
mutually inductive list types so that structural recursion and induction over
the nested structure are direct.  A `f64` scalar (`Value::F`) is represented
by the text its Rust `Display` formatting produces: the encoders only ever
use that text, and binary floating-point formatting itself is outside the
scope of this embedding. -/

mutual

inductive Value where
  | A (a : ArrayV)
  | O (o : ObjectV)
  | S (s : String)
  | U (u : Nat)
  | I (i : Int)
  | F (rendered : String)
  | E
  deriving DecidableEq

inductive ArrayV where
  | mk (elements : ValueList) (nonemptyBase45 : Bool) (sep : String)
  deriving DecidableEq

inductive ObjectV where
  | mk (fields : FieldList)
  deriving DecidableEq

inductive ValueList where
  | nil
  | cons (hd : Value) (tl : ValueList)
  deriving DecidableEq

inductive FieldList where
  | nil
  | cons (tag : String) (val : Value) (tl : FieldList)
  deriving DecidableEq

end

/-- The `Value::U` payloads of an array's elements, for the base-45 branch of
the encoders.  The Rust code panics ("Not a Value::U") on other variants; that
unreachable case is modelled as 0. -/
def uValues : ValueList → List Nat
  | .nil => []
  | .cons (.U u) tl => u :: uValues tl
  | .cons _ tl => 0 :: uValues tl

/-- Modelled from the spec: `util::csv_quote` (util.rs is not under src/).
A field or element is CSV-quoted iff it contains `,` or `"`, by surrounding
it with `"` and doubling every internal `"`. -/
def csvQuote (s : List Char) : List Char :=
  if s.any (fun c => c = ',' || c = '"') then
    '"' :: s.foldr (fun c acc => if c = '"' then '"' :: '"' :: acc else c :: acc) ['"']
  else s

mutual

/-- `format_csv_value` from `output.rs`. -/
def formatCsvValue : Value → List Char
  | .A a => formatCsvArray a
  | .O o => formatCsvObject o
  | .S s => s.data
  | .U u => (Nat.repr u).data
  | .I i => (toString i).data
  | .F r => r.data
  | .E => []

/-- `format_csv_array` from `output.rs`. -/
def formatCsvArray : ArrayV → List Char
  | .mk elts b45 sep =>
    if b45 then encodeCpuSecsBase45el (uValues elts)
    else formatCsvElemsFirst elts sep

/-- The element loop of `format_csv_array` (first element: no separator). -/
def formatCsvElemsFirst : ValueList → String → List Char
  | .nil, _ => []
  | .cons v tl, sep => csvQuote (formatCsvValue v) ++ formatCsvElemsRest tl sep

/-- The element loop of `format_csv_array` (later elements: separator first). -/
def formatCsvElemsRest : ValueList → String → List Char
  | .nil, _ => []
  | .cons v tl, sep => sep.data ++ csvQuote (formatCsvValue v) ++ formatCsvElemsRest tl sep

/-- `format_csv_object` from `output.rs`. -/
def formatCsvObject : ObjectV → List Char
  | .mk fields => formatCsvFieldsFirst fields

/-- The field loop of `format_csv_object` (first field: no comma). -/
def formatCsvFieldsFirst : FieldList → List Char
  | .nil => []
  | .cons t v tl => csvQuote (t.data ++ '=' :: formatCsvValue v) ++ formatCsvFieldsRest tl

/-- The field loop of `format_csv_object` (later fields: comma first). -/
def formatCsvFieldsRest : FieldList → List Char
  | .nil => []
  | .cons t v tl =>
    ',' :: (csvQuote (t.data ++ '=' :: formatCsvValue v) ++ formatCsvFieldsRest tl)

end

/-- `write_csv` from `output.rs`: the formatted value plus a trailing
newline. -/
def writeCsv (v : Value) : List Char := formatCsvValue v ++ ['\n']

/-- Hexadecimal digit characters for the `\uXXXX` escapes of the modelled
`json_quote` (lower case; no claim fixes the case). -/
def hexDigitChar (n : Nat) : Char := "0123456789abcdef".data.getD n '0'

/-- Modelled from the spec: `util::json_quote` (util.rs is not under src/).
Escapes `"` and `\`, and control characters (below U+0020) as `\u00XX`; all
other characters pass through. -/
def jsonQuoteChars : List Char → List Char
  | [] => []
  | c :: r =>
    (if c = '"' then ['\\', '"']
     else if c = '\\' then ['\\', '\\']
     else if c.toNat < 32 then
       ['\\', 'u', '0', '0', hexDigitChar (c.toNat / 16), hexDigitChar (c.toNat % 16)]
     else [c]) ++ jsonQuoteChars r

mutual

/-- `write_json_int` from `output.rs`, as the character list it writes. -/
def renderJson : Value → List Char
  | .A a => renderJsonArray a
  | .O o => renderJsonObject o
  | .S s => '"' :: (jsonQuoteChars s.data ++ ['"'])
  | .U u => (Nat.repr u).data
  | .I i => (toString i).data
  | .F r => r.data
  | .E => []

/-- `write_json_array` from `output.rs`: a base-45 marked array is written as
the bare encoded string; otherwise brackets around comma-separated
elements. -/
def renderJsonArray : ArrayV → List Char
  | .mk elts b45 _ =>
    if b45 then encodeCpuSecsBase45el (uValues elts)
    else '[' :: (renderJsonElems elts ++ [']'])

/-- The element loop of `write_json_array`: a comma before every element but
the first (an `Empty` element still gets its comma and writes nothing). -/
def renderJsonElems : ValueList → List Char
  | .nil => []
  | .cons v .nil => renderJson v
  | .cons v tl => renderJson v ++ ',' :: renderJsonElems tl

/-- `write_json_object` from `output.rs`. -/
def renderJsonObject : ObjectV → List Char
  | .mk fields => '\x7b' :: (renderJsonMembers fields ++ ['\x7d'])

/-- The field loop of `write_json_object`. -/
def renderJsonMembers : FieldList → List Char
  | .nil => []
  | .cons t v .nil => '"' :: (jsonQuoteChars t.data ++ '"' :: ':' :: renderJson v)
  | .cons t v tl =>
    ('"' :: (jsonQuoteChars t.data ++ '"' :: ':' :: renderJson v)) ++ ',' :: renderJsonMembers tl

end

/-- `write_json` from `output.rs`: the rendered value plus a trailing
newline. -/
def writeJson (v : Value) : List Char := renderJson v ++ ['\n']

/-! ## A JSON validity checker (RFC 8259)

An executable recogniser for JSON texts, used to state the validity claim.
`parseV fuel cs` consumes one JSON value (with surrounding-whitespace
handling per the RFC grammar `ws value ws`) and returns the remaining input,
or `none`; `fuel` only bounds recursion depth, and a text is valid when some
fuel suffices. -/

/-- RFC 8259 insignificant whitespace. -/
def isJsonWs (c : Char) : Bool :=
  c = ' ' || c = '\t' || c = '\n' || c = '\x0d'

/-- Drop leading insignificant whitespace. -/
def skipWs (cs : List Char) : List Char := cs.dropWhile isJsonWs

/-- ASCII decimal digit. -/
def isDigitChar (c : Char) : Bool := '0' ≤ c && c ≤ '9'

/-- ASCII hexadecimal digit. -/
def isHexChar (c : Char) : Bool :=
  isDigitChar c || ('a' ≤ c && c ≤ 'f') || ('A' ≤ c && c ≤ 'F')

/-- Consume the remainder of a JSON string after the opening quote. -/
def parseStringRest : List Char → Option (List Char)
  | [] => none
  | '"' :: r => some r
  | '\\' :: e :: r =>
    if e = '"' || e = '\\' || e = '/' || e = 'b' || e = 'f' || e = 'n' ||
        e = 'r' || e = 't' then
      parseStringRest r
    else if e = 'u' then
      match r with
      | a :: b :: c :: d :: r2 =>
        if isHexChar a && isHexChar b && isHexChar c && isHexChar d then
          parseStringRest r2
        else none
      | _ => none
    else none
  | c :: r => if 32 ≤ c.toNat then parseStringRest r else none

/-- Consume the integer part of a JSON number (`0` or a nonzero digit
followed by digits). -/
def parseIntPart : List Char → Option (List Char)
  | [] => none
  | '0' :: r => some r
  | c :: r =>
    if isDigitChar c then some (r.dropWhile isDigitChar) else none

/-- Consume an optional JSON fraction part (`.` followed by one or more
digits). -/
def parseFracPart (cs : List Char) : Option (List Char) :=
  match cs with
  | '.' :: r =>
    match r with
    | c :: _ => if isDigitChar c then some (r.dropWhile isDigitChar) else none
    | [] => none
  | _ => some cs

/-- Consume an optional JSON exponent part (`e`/`E`, optional sign, one or
more digits). -/
def parseExpPart (cs : List Char) : Option (List Char) :=
  match cs with
  | c :: r =>
    if c = 'e' || c = 'E' then
      let r := match r with
        | s :: r2 => if s = '+' || s = '-' then r2 else s :: r2
        | [] => []
      match r with
      | d :: _ => if isDigitChar d then some (r.dropWhile isDigitChar) else none
      | [] => none
    else some cs
  | [] => some cs

/-- Consume a JSON number. -/
def parseNumber (cs : List Char) : Option (List Char) :=
  let cs := match cs with
    | '-' :: r => r
    | r => r
  match parseIntPart cs with
  | none => none
  | some r =>
    match parseFracPart r with
    | none => none
    | some r2 => parseExpPart r2

mutual

/-- Consume one JSON value, after skipping leading whitespace. -/
def parseV : Nat → List Char → Option (List Char)
  | 0, _ => none
  | fuel + 1, cs =>
    match skipWs cs with
    | '"' :: r => parseStringRest r
    | '[' :: r =>
      match skipWs r with
      | ']' :: r2 => some r2
      | _ => parseElems fuel r
    | '\x7b' :: r =>
      match skipWs r with
      | '\x7d' :: r2 => some r2
      | _ => parseMembers fuel r
    | 't' :: 'r' :: 'u' :: 'e' :: r => some r
    | 'f' :: 'a' :: 'l' :: 's' :: 'e' :: r => some r
    | 'n' :: 'u' :: 'l' :: 'l' :: r => some r
    | rest => parseNumber rest

/-- Consume the elements of a nonempty JSON array plus the closing `]`. -/
def parseElems : Nat → List Char → Option (List Char)
  | 0, _ => none
  | fuel + 1, cs =>
    match parseV fuel cs with
    | some r =>
      match skipWs r with
      | ',' :: r2 => parseElems fuel r2
      | ']' :: r2 => some r2
      | _ => none
    | none => none

/-- Consume the members of a nonempty JSON object plus the closing brace. -/
def parseMembers : Nat → List Char → Option (List Char)
  | 0, _ => none
  | fuel + 1, cs =>
    match skipWs cs with
    | '"' :: r =>
      match parseStringRest r with
      | some r2 =>
        match skipWs r2 with
        | ':' :: r3 =>
          match parseV fuel r3 with
          | some r4 =>
            match skipWs r4 with
            | ',' :: r5 => parseMembers fuel r5
            | '\x7d' :: r5 => some r5
            | _ => none
          | none => none
        | _ => none
      | none => none
    | _ => none

end

/-- Whether `cs` is accepted as a complete JSON text with the given recursion
fuel. -/
def jsonAccepts (fuel : Nat) (cs : List Char) : Bool :=
  match parseV fuel cs with
  | some r => skipWs r = []
  | none => false

/-- A character list is a valid JSON text (RFC 8259) if some recursion depth
lets the recogniser accept it. -/
def IsValidJson (cs : List Char) : Prop := ∃ fuel, jsonAccepts fuel cs = true

/-! ## AMD GPU probe (`amd.rs`) -/

/-- Modelled from the spec: `gpu::ZOMBIE_UID` (gpu.rs is not under src/).
The spec only says a sentinel uid exists; its numeric value is unspecified
and no claim depends on it. -/
def ZOMBIE_UID : Nat := 666666

/-- `gpu::Process` (declared in gpu.rs, which is not under src/; the field
list is reconstructed from its uses in `amd.rs` and the spec's GpuProcess
data model).  Percentages are `f64` in Rust, modelled over `ℚ`. -/
structure GpuProcess where
  device : Option Nat
  pid : Nat
  user : String
  uid : Nat
  gpu_pct : ℚ
  mem_pct : ℚ
  mem_size_kib : Nat
  command : String
  deriving DecidableEq

/-- Rank of an `Option<usize>` device under Rust's `Ord` for `Option`
(`None` sorts before every `Some`). -/
def devRank : Option Nat → Nat
  | none => 0
  | some d => d + 1

/-- The comparator of `extract_amd_information`'s `sort_by`, as a `≤`
relation: device first (`Option` order), then pid. -/
def gpuLe (p q : GpuProcess) : Prop :=
  devRank p.device < devRank q.device ∨
    (devRank p.device = devRank q.device ∧ p.pid ≤ q.pid)

instance : DecidableRel gpuLe := fun p q => by
  unfold gpuLe
  infer_instance

instance : IsTotal GpuProcess gpuLe :=
  ⟨fun p q => by
    unfold gpuLe
    rcases Nat.lt_trichotomy (devRank p.device) (devRank q.device) with h | h | h
    · exact Or.inl (Or.inl h)
    · rcases Nat.le_total p.pid q.pid with hp | hp
      · exact Or.inl (Or.inr ⟨h, hp⟩)
      · exact Or.inr (Or.inr ⟨h.symm, hp⟩)
    · exact Or.inr (Or.inl h)⟩

instance : IsTrans GpuProcess gpuLe :=
  ⟨fun p q r hpq hqr => by
    unfold gpuLe at *
    rcases hpq with h1 | ⟨h1, h1p⟩ <;> rcases hqr with h2 | ⟨h2, h2p⟩
    · exact Or.inl (Nat.lt_trans h1 h2)
    · exact Or.inl (h2 ▸ h1)
    · exact Or.inl (h1 ▸ h2)
    · exact Or.inr ⟨h1.trans h2, Nat.le_trans h1p h2p⟩⟩

/-- The `num_processes_per_device` vector of `extract_amd_information`:
`vec![0; per_device_info.len()]` with an increment per listed device.
Rust's increment (and the later `per_device_info[*dev]` index) panics when a
listed device is out of range, which `List.set`/`getD` model as a
no-op/default. -/
def amdCounts (perDeviceInfo : List (ℚ × ℚ))
    (perPidInfo : List (Nat × List Nat)) : List Nat :=
  perPidInfo.foldl
    (fun acc p => p.2.foldl (fun a dev => a.set dev (a.getD dev 0 + 1)) acc)
    (List.replicate perDeviceInfo.length 0)

/-- The `gpu::Process` record `extract_amd_information` pushes for one pid on
one device. -/
def amdCodeEntry (perDeviceInfo : List (ℚ × ℚ)) (counts : List Nat)
    (userByPid : Nat → Option (String × Nat)) (pid dev : Nat) : GpuProcess :=
  let userUid := match userByPid pid with
    | some (user, uid) => (user, uid)
    | none => ("_zombie_" ++ Nat.repr pid, ZOMBIE_UID)
  { device := some dev
    pid := pid
    user := userUid.1
    uid := userUid.2
    gpu_pct := (perDeviceInfo.getD dev (0, 0)).1 / ((counts.getD dev 0 : Nat) : ℚ)
    mem_pct := (perDeviceInfo.getD dev (0, 0)).2 / ((counts.getD dev 0 : Nat) : ℚ)
    mem_size_kib := 0
    command := "_noinfo_" }

/-- `extract_amd_information` from `amd.rs`: one record per (pid, device)
pair, then the `sort_by` on (device, pid).  Rust's stable `sort_by` is
modelled by insertion sort, which is also stable, so the two agree on
ties. -/
def extractAmdInformation (perDeviceInfo : List (ℚ × ℚ))
    (perPidInfo : List (Nat × List Nat))
    (userByPid : Nat → Option (String × Nat)) : List GpuProcess :=
  (perPidInfo.flatMap (fun p =>
    p.2.map (amdCodeEntry perDeviceInfo (amdCounts perDeviceInfo perPidInfo)
      userByPid p.1))).insertionSort gpuLe

/-- Model of Rust `str::parse::<f64>()` on the decimal forms the rocm-smi
parsers feed it: optional sign, digits, optional `.` plus digits, at least
one digit in total.  (Exponents, `inf` and `nan` are accepted by Rust but
unreachable here and not modelled.) -/
def parseF64 (cs : List Char) : Option ℚ :=
  let signAndRest : Bool × List Char := match cs with
    | '-' :: r => (true, r)
    | '+' :: r => (false, r)
    | r => (false, r)
  let intDigits := signAndRest.2.takeWhile isDigitChar
  let rest := signAndRest.2.dropWhile isDigitChar
  let fracAndTail : List Char × List Char := match rest with
    | '.' :: r => (r.takeWhile isDigitChar, r.dropWhile isDigitChar)
    | r => ([], r)
  if fracAndTail.2 = [] ∧ (intDigits ≠ [] ∨ fracAndTail.1 ≠ []) ∧
      (rest = [] ∨ rest.headD ' ' = '.') then
    let ip : ℚ := intDigits.foldl (fun a c => a * 10 + ((c.toNat - 48 : Nat) : ℚ)) 0
    let fp : ℚ := fracAndTail.1.foldl (fun a c => a * 10 + ((c.toNat - 48 : Nat) : ℚ)) 0
    let mag : ℚ := ip + fp / ((10 : ℚ) ^ fracAndTail.1.length)
    some (if signAndRest.1 then -mag else mag)
  else none

/-- `is_terminator` from `amd.rs`: all characters are `=`. -/
def isTerminator (s : List Char) : Bool := s.all (· = '=')

/-- `find_block` from `amd.rs`: skip lines until one contains the trigger,
then collect lines until an all-`=` terminator line or end of input. -/
def findBlock (rawText : List Char) (trigger : String) : List (List Char) :=
  let ls := rustLines rawText
  match ls.dropWhile (fun l => !strContains l trigger) with
  | [] => []
  | _ :: rest => rest.takeWhile (fun l => !isTerminator l)

/-- Model of Rust `str::split(',')`: all chunks kept, including empty
ones. -/
def splitOnComma (cs : List Char) : List (List Char) :=
  match cs with
  | [] => [[]]
  | d :: rest =>
    let r := splitOnComma rest
    if d = ',' then [] :: r else (d :: r.headD []) :: r.tail

/-- The `strip_suffix('%').unwrap_or("0")` step of
`parse_text_concise_command`: remove a trailing `%`, or replace the whole
field by `0` when there is none. -/
def stripPercent (cs : List Char) : List Char :=
  if cs.getLast? = some '%' then cs.dropLast else ['0']

/-- `parse_csv_concise_command` from `amd.rs`. -/
def parseCsvConciseCommand (rawText : List Char) : Except String (List (ℚ × ℚ)) :=
  let step : (List (ℚ × ℚ) × Bool) → List Char →
      Except String (List (ℚ × ℚ) × Bool) := fun (mappings, foundDevice) l =>
    if startsWithS "device" l then
      if foundDevice then .error "Inconsistent output"
      else
        let fields := splitOnComma l
        if fields.length ≥ 3 ∧ startsWithS "GPU use" (fields.getD 1 []) ∧
            startsWithS "GPU Memory" (fields.getD 2 []) then
          .ok (mappings, true)
        else .ok (mappings, foundDevice)
    else if startsWithS "card" l then
      let rest := l.drop 4
      let fields := splitOnComma rest
      if fields.length ≥ 3 then
        match parseUsize (fields.getD 0 []), parseF64 (fields.getD 1 []),
            parseF64 (fields.getD 2 []) with
        | some dev, some gpu, some gpumem =>
          let mappings := if mappings.length < dev + 1 then
              mappings ++ List.replicate (dev + 1 - mappings.length) (0, 0)
            else mappings
          .ok (mappings.set dev (gpu, gpumem), foundDevice)
        | _, _, _ => .ok (mappings, foundDevice)
      else .ok (mappings, foundDevice)
    else .ok (mappings, foundDevice)
  match (rustLines rawText).foldlM step ([], false) with
  | .error e => .error e
  | .ok (mappings, foundDevice) =>
    if foundDevice ∧ mappings.length > 0 then .ok mappings
    else .error "Inconsistent output"

/-- `parse_text_concise_command` from `amd.rs`.  The header and field
indexings `hdr[hdr.len()-2]`, `fields[0]`, `fields[fields.len()-2]` panic in
Rust when the respective vector is too short; those unreachable cases are
modelled by `getD` defaults. -/
def parseTextConciseCommand (rawText : List Char) : Except String (List (ℚ × ℚ)) :=
  let block := findBlock rawText "= Concise Info ="
  if block.length > 1 then
    let hdr := splitWs (block.headD [])
    if hdr.getD (hdr.length - 2) [] = "VRAM%".data ∧
        hdr.getD (hdr.length - 1) [] = "GPU%".data then
      let step : List (ℚ × ℚ) → List Char → List (ℚ × ℚ) := fun mappings l =>
        let fields := splitWs l
        let dev := (parseUsize (fields.getD 0 [])).getD 0
        let mem := (parseF64 (stripPercent (fields.getD (fields.length - 2) []))).getD 0
        let gpu := (parseF64 (stripPercent (fields.getD (fields.length - 1) []))).getD 0
        let mappings := if mappings.length < dev + 1 then
            mappings ++ List.replicate (dev + 1 - mappings.length) (0, 0)
          else mappings
        mappings.set dev (gpu, mem)
      .ok (block.tail.foldl step [])
    else
      .error ("Unexpected `Concise Info` header in output for AMD card:\n" ++
        String.mk rawText)
  else
    .error ("`Concise Info` block not found in output for AMD card:\n" ++
      String.mk rawText)

/-- `parse_showpidgpus_command` from `amd.rs`: walk the block two lines at a
time; a `PID <pid> is using <N> DRM device(s):` line contributes the
whitespace-separated device list on the following line (empty when `N` is
zero).  Rust's `xs[1]`, `xs[4]` indexings panic on a too-short line whose
first token is `PID`; `getD` models those unreachable cases. -/
def pidgpusEntry (a b : List Char) : List (Nat × List Nat) :=
  let xs := splitWs a
  if xs.getD 0 [] = "PID".data ∧ xs.getD 2 [] = "is".data ∧
      xs.getD 3 [] = "using".data ∧ xs.getD 5 [] = "DRM".data then
    let pid := (parseUsize (xs.getD 1 [])).getD 0
    let numdev := (parseUsize (xs.getD 4 [])).getD 0
    let devices := if numdev > 0 then
        (splitWs b).map (fun d => (parseUsize d).getD 0)
      else []
    [(pid, devices)]
  else []

/-- The `while i < block.len()` loop of `parse_showpidgpus_command`, two
lines at a time (a trailing odd line cannot occur under the even-length
guard; it is processed with an empty device line). -/
def pidgpusPairs : List (List Char) → List (Nat × List Nat)
  | [] => []
  | [a] => pidgpusEntry a []
  | a :: b :: tl => pidgpusEntry a b ++ pidgpusPairs tl

/-- `parse_showpidgpus_command` from `amd.rs` (block lookup and shape checks
around `pidgpusPairs`). -/
def parseShowpidgpusCommand (rawText : List Char) :
    Except String (List (Nat × List Nat)) :=
  let block := findBlock rawText "= GPUs Indexed by PID ="
  if block.length = 1 ∧ startsWithS "No KFD PIDs" (block.headD []) then
    .ok []
  else if block.length > 1 ∧ block.length % 2 = 0 then
    .ok (pidgpusPairs block)
  else
    .error ("`GPUs Indexed By PID` block not found in output for AMD card\n" ++
      String.mk rawText)

/-- Modelled from the spec: `command::CmdError` (command.rs is not under
src/).  The four error kinds of the subprocess runner, §2/§7 of the spec;
payloads are collapsed to a message string. -/
inductive CmdError where
  | CouldNotStart (msg : String)
  | Timeout (msg : String)
  | NonZeroExit (msg : String)
  | IoError (msg : String)
  deriving DecidableEq

/-- The `format!("{:?}", e)` debug rendering used when `amd.rs` converts a
subprocess error into a `String` error. -/
def cmdErrorDebug : CmdError → String
  | .CouldNotStart m => "CouldNotStart(" ++ m ++ ")"
  | .Timeout m => "Timeout(" ++ m ++ ")"
  | .NonZeroExit m => "NonZeroExit(" ++ m ++ ")"
  | .IoError m => "IoError(" ++ m ++ ")"

/-- The second (bare `rocm-smi`) attempt of `get_raw_per_device_info`:
parse the text-mode Concise Info on success, treat `CouldNotStart` as "no
data", propagate any other error. -/
def perDeviceSecondStage (textInvocation : Except CmdError String) :
    Except String (List (ℚ × ℚ)) :=
  match textInvocation with
  | .ok text => parseTextConciseCommand text.data
  | .error (.CouldNotStart _) => .ok []
  | .error e => .error (cmdErrorDebug e)

/-- `get_raw_per_device_info` from `amd.rs`, parameterised over the results
of its two subprocess invocations (`rocm-smi --showuse --showmemuse --csv`,
then bare `rocm-smi`).  The CSV attempt falls through to the text attempt on
a parse failure or on any non-`CouldNotStart` subprocess error. -/
def getRawPerDeviceInfo (csvInvocation : Except CmdError String)
    (textInvocation : Except CmdError String) : Except String (List (ℚ × ℚ)) :=
  match csvInvocation with
  | .ok text =>
    match parseCsvConciseCommand text.data with
    | .ok info => .ok info
    | .error _ => perDeviceSecondStage textInvocation
  | .error (.CouldNotStart _) => .ok []
  | .error _ => perDeviceSecondStage textInvocation

/-- `get_raw_per_pid_info` from `amd.rs`, parameterised over the result of
its `rocm-smi --showpidgpus` invocation. -/
def getRawPerPidInfo (invocation : Except CmdError String) :
    Except String (List (Nat × List Nat)) :=
  match invocation with
  | .ok text => parseShowpidgpusCommand text.data
  | .error (.CouldNotStart _) => .ok []
  | .error e => .error (cmdErrorDebug e)

/-! ## The /proc process sampler (`procfs.rs`)

The `SystemAPI` / `ProcfsAPI` ports are modelled as a record of pure
functions; `none` for a file means the read failed (`Err` in Rust).  The
`f64` percentage arithmetic is carried out over `ℚ`; `f64::round` (round
half away from zero) agrees with Mathlib's `round` (round half up) on the
non-negative values that arise here. -/

/-- `procfs::Process` from `procfs.rs`. -/
structure Process where
  pid : Nat
  ppid : Nat
  pgrp : Nat
  uid : Nat
  user : String
  cpu_pct : ℚ
  mem_pct : ℚ
  cputime_sec : Nat
  mem_size_kib : Nat
  rssanon_kib : Nat
  command : String
  has_children : Bool
  deriving DecidableEq

/-- `procfs::Memory` from `procfs.rs` (figures in KiB). -/
structure MemoryInfo where
  total : Nat
  available : Nat
  deriving DecidableEq

/-- The ports of `systemapi::SystemAPI` and `procfsapi::ProcfsAPI` used by
`get_memory` and `get_process_information`.  A `none` file content models a
failed read. -/
structure SystemAPI where
  clkTck : Nat
  pageSizeKib : Nat
  nowSecs : Nat
  userByUid : Nat → Option String
  statFile : Option String
  meminfoFile : Option String
  pidList : Option (List (Nat × Nat))
  pidStat : Nat → Option String
  pidStatm : Nat → Option String
  pidStatus : Nat → Option String

/-- `parse_usize_field` from `procfs.rs`, including its two error-message
shapes (`pid = 0` marks a whole-system file). -/
def parseUsizeField (fields : List (List Char)) (ix : Nat) (line : List Char)
    (file : String) (pid : Nat) (fieldname : String) : Except String Nat :=
  if ix ≥ fields.length then
    .error (if pid = 0 then
        "Index out of range for /proc/" ++ file ++ ": " ++ Nat.repr ix ++ ": " ++
          String.mk line
      else
        "Index out of range for /proc/" ++ Nat.repr pid ++ "/" ++ file ++ ": " ++
          Nat.repr ix ++ ": " ++ String.mk line)
  else
    match parseUsize (fields.getD ix []) with
    | some n => .ok n
    | none =>
      .error (if pid = 0 then
          "Could not parse " ++ fieldname ++ " in /proc/" ++ file ++ ": " ++
            String.mk line
        else
          "Could not parse " ++ fieldname ++ " from /proc/" ++ Nat.repr pid ++
            "/" ++ file ++ ": " ++ String.mk line)

/-- The `MemTotal:` / `MemAvailable:` line handler of `get_memory`: check the
`tag: N kB` shape and parse the number. -/
def meminfoLineValue (l : List Char) : Except String Nat :=
  let fields := splitWs l
  if fields.length ≠ 3 ∨ fields.getD 2 [] ≠ "kB".data then
    .error ("Unexpected " ++ String.mk (fields.getD 0 []) ++
      " in /proc/meminfo: " ++ String.mk l)
  else parseUsizeField fields 1 l "meminfo" 0 (String.mk (fields.getD 0 []))

/-- The per-line state update of `get_memory`'s loop. -/
def meminfoStep (st : Nat × Nat) (l : List Char) : Except String (Nat × Nat) :=
  if startsWithS "MemTotal: " l then
    (meminfoLineValue l).map (fun v => (v, st.2))
  else if startsWithS "MemAvailable: " l then
    (meminfoLineValue l).map (fun v => (st.1, v))
  else .ok st

/-- `get_memory` from `procfs.rs`. -/
def getMemory (meminfo : Option String) : Except String MemoryInfo :=
  match meminfo with
  | none => .error "could not read /proc/meminfo"
  | some s =>
    match (splitNl s.data).foldlM meminfoStep (0, 0) with
    | .error e => .error e
    | .ok (tot, avail) =>
      if tot = 0 then
        .error ("Could not find MemTotal in /proc/meminfo: " ++ s)
      else .ok ⟨tot, avail⟩

/-- `STAT_FIELDS` from `procfs.rs`: user, nice, system, irq, softirq. -/
def STAT_FIELDS : List Nat := [1, 2, 3, 6, 7]

/-- Grow a vector with zeros to hold index `i`, then store `v` there
(`resize` + assignment in the Rust loop). -/
def resizeSet (l : List Nat) (i : Nat) (v : Nat) : List Nat :=
  let l := if l.length < i + 1 then l ++ List.replicate (i + 1 - l.length) 0 else l
  l.set i v

/-- The /proc/stat line handler of `get_process_information`: state is
`(boot_time, cpu_total_secs, per_cpu_secs)`. -/
def statLineStep (tps : Nat) (st : Nat × Nat × List Nat) (l : List Char) :
    Except String (Nat × Nat × List Nat) :=
  if startsWithS "cpu" l then
    match STAT_FIELDS.foldlM
        (fun sum i => (parseUsizeField (splitWs l) i l "stat" 0 "cpu").map
          (sum + ·)) 0 with
    | .error e => .error e
    | .ok sum =>
      if startsWithS "cpu " l then .ok (st.1, sum / tps, st.2.2)
      else
        match parseUsize (((splitWs l).getD 0 []).drop 3) with
        | none => .ok st
        | some cpuNo => .ok (st.1, st.2.1, resizeSet st.2.2 cpuNo (sum / tps))
  else if startsWithS "btime " l then
    match parseUsizeField (splitWs l) 1 l "stat" 0 "btime" with
    | .error e => .error e
    | .ok b => .ok (b, st.2.1, st.2.2)
  else .ok st

/-- The uid → name lookup of `UserTable::lookup` (the per-snapshot cache is
semantically transparent). -/
def lookupUser (userByUid : Nat → Option String) (uid : Nat) : String :=
  match userByUid uid with
  | some name => name
  | none => "_user_" ++ Nat.repr uid

/-- The first `RssAnon:` line of /proc/pid/status, if any. -/
def firstRssAnonLine (ls : List (List Char)) : Option (List Char) :=
  ls.find? (startsWithS "RssAnon:")

/-- The `comm` span of a /proc/pid/stat line: the text between the first `(`
and the last `)`, plus everything after that `)`, or `none` when either
parenthesis is missing. -/
def commSplit (cs : List Char) : Option (List Char × List Char) :=
  if cs.contains '(' ∧ cs.contains ')' then
    let commstart := cs.indexOf '('
    let commend := cs.length - 1 - cs.reverse.indexOf ')'
    if commstart + 1 ≤ commend then
      some ((cs.drop (commstart + 1)).take (commend - commstart - 1),
        cs.drop (commend + 1))
    else none
  else none

/-- The per-pid sampling body of `get_process_information`'s main loop.
`.ok none` models `continue` (the pid is silently dropped), `.error` models
the loop's `?`-propagation (a fatal structural parse error), and `.ok (some
p)` is an inserted process (with `has_children` still false). -/
def sampleOne (sys : SystemAPI) (bootTime : Nat) (memtotalKib : Nat)
    (pid uid : Nat) : Except String (Option Process) :=
  match sys.pidStat pid with
  | none => .ok none
  | some line =>
    match commSplit line.data with
    | none =>
      .error ("Could not parse command from /proc/" ++ Nat.repr pid ++
        "/stat: " ++ line)
    | some (commChars, afterComm) =>
      let fields := splitWs afterComm
      -- Rust reads `fields[0]` (a panic on an empty vector, which cannot
      -- happen for a well-formed stat line); the empty default never equals
      -- "X"/"Z" and later field parses then fail as in Rust.
      let state := fields.getD 0 []
      if state = "X".data then .ok none
      else
        let comm := String.mk commChars ++
          (if state = "Z".data then " <defunct>" else "")
        match parseUsizeField fields 1 line.data "stat" pid "ppid" with
        | .error e => .error e
        | .ok ppid =>
        match parseUsizeField fields 2 line.data "stat" pid "pgrp" with
        | .error e => .error e
        | .ok pgrp =>
        match parseUsizeField fields 11 line.data "stat" pid "utime" with
        | .error e => .error e
        | .ok utime =>
        match parseUsizeField fields 12 line.data "stat" pid "stime" with
        | .error e => .error e
        | .ok stime =>
        match parseUsizeField fields 13 line.data "stat" pid "cutime" with
        | .error e => .error e
        | .ok cutime =>
        match parseUsizeField fields 14 line.data "stat" pid "cstime" with
        | .error e => .error e
        | .ok cstime =>
        match parseUsizeField fields 19 line.data "stat" pid "starttime" with
        | .error e => .error e
        | .ok startTimeTicks =>
          let tps : ℚ := (sys.clkTck : ℚ)
          let nowTicks : ℚ := (sys.nowSecs : ℚ) * tps
          let bootTicks : ℚ := (bootTime : ℚ) * tps
          let realtimeTicks : ℚ :=
            max 1 (nowTicks - (bootTicks + (startTimeTicks : ℚ)))
          match sys.pidStatm pid with
          | none => .ok none
          | some statm =>
            let sfields := splitWs statm.data
            match parseUsizeField sfields 1 statm.data "statm" pid
                "resident set size" with
            | .error e => .error e
            | .ok rssPages =>
            match parseUsizeField sfields 5 statm.data "statm" pid "data size" with
            | .error e => .error e
            | .ok sizePages =>
              let rssKib := rssPages * sys.pageSizeKib
              let sizeKib := sizePages * sys.pageSizeKib
              match sys.pidStatus pid with
              | none => .ok none
              | some status =>
                let rssanonRes : Except String Nat :=
                  match firstRssAnonLine (splitNl status.data) with
                  | none => .ok 0
                  | some l =>
                    let lfields := splitWs l
                    if lfields.length ≠ 3 ∨ lfields.getD 2 [] ≠ "kB".data then
                      .error ("Unexpected RssAnon in /proc/" ++ Nat.repr pid ++
                        "/status: " ++ String.mk l)
                    else
                      parseUsizeField lfields 1 l "status" pid
                        "private resident set size"
                match rssanonRes with
                | .error e => .error e
                | .ok rssanonKib =>
                  let pcpuValue : ℚ := ((utime : ℚ) + (stime : ℚ)) / realtimeTicks
                  let pcpuFormatted : ℚ := ((round (pcpuValue * 1000) : ℤ) : ℚ) / 10
                  let cputimeSec : Nat :=
                    (round (((utime + stime + cutime + cstime : Nat) : ℚ) / tps)).toNat
                  let pmem : ℚ :=
                    min (((round ((rssKib : ℚ) * 1000 / (memtotalKib : ℚ)) : ℤ) : ℚ) / 10)
                      (999 / 10)
                  .ok (some
                    { pid := pid
                      ppid := ppid
                      pgrp := pgrp
                      uid := uid
                      user := lookupUser sys.userByUid uid
                      cpu_pct := pcpuFormatted
                      mem_pct := pmem
                      cputime_sec := cputimeSec
                      mem_size_kib := sizeKib
                      rssanon_kib := rssanonKib
                      command := comm
                      has_children := false })

/-- `HashMap::insert` over the association-list model: replace an existing
binding, else append.  (The iteration order of the Rust `HashMap` is
unspecified; only lookup/membership are claimed.) -/
def insertEntry (m : List (Nat × Process)) (k : Nat) (v : Process) :
    List (Nat × Process) :=
  if m.any (fun kv => kv.1 = k) then
    m.map (fun kv => if kv.1 = k then (k, v) else kv)
  else m ++ [(k, v)]

/-- The pid loop of `get_process_information`: fold `sampleOne` over the
enumerated pids, accumulating the process map and the set (modelled as a
list) of observed parent pids. -/
def pidFoldStep (sys : SystemAPI) (bootTime memtotalKib : Nat)
    (st : List (Nat × Process) × List Nat) (pu : Nat × Nat) :
    Except String (List (Nat × Process) × List Nat) :=
  (sampleOne sys bootTime memtotalKib pu.1 pu.2).map (fun r =>
    match r with
    | none => st
    | some p => (insertEntry st.1 pu.1 p, p.ppid :: st.2))

/-- `get_process_information` from `procfs.rs`: CLK_TCK check, /proc/stat
parse (boot time, total and per-cpu seconds), per-pid sampling, and the
`has_children` post-pass. -/
def getProcessInformation (sys : SystemAPI) (memtotalKib : Nat) :
    Except String (List (Nat × Process) × Nat × List Nat) :=
  let tps := sys.clkTck
  if tps = 0 then .error "Could not get a sensible CLK_TCK"
  else
    match sys.statFile with
    | none => .error "could not read /proc/stat"
    | some stat_s =>
      match (splitNl stat_s.data).foldlM (statLineStep tps) (0, 0, []) with
      | .error e => .error e
      | .ok (bootTime, cpuTotalSecs, perCpuSecs) =>
        if bootTime = 0 then
          .error ("Could not find btime in /proc/stat: " ++ stat_s)
        else
          match sys.pidList with
          | none => .error "could not enumerate /proc"
          | some pids =>
            match pids.foldlM (pidFoldStep sys bootTime memtotalKib) ([], []) with
            | .error e => .error e
            | .ok (entries, ppids) =>
              .ok (entries.map (fun kp =>
                  (kp.1, { kp.2 with has_children := ppids.contains kp.2.pid })),
                cpuTotalSecs, perCpuSecs)

/-! ## Spec-side definitions used to state the claims -/

/-- Whether an `Except` result is an error. -/
def isError {α : Type} (r : Except String α) : Bool :=
  match r with
  | .error _ => true
  | .ok _ => false

instance exceptDecEq {ε α : Type} [DecidableEq ε] [DecidableEq α] :
    DecidableEq (Except ε α) := fun a b =>
  match a, b with
  | .ok x, .ok y =>
    if h : x = y then isTrue (by rw [h])
    else isFalse (fun hc => h (by cases hc; rfl))
  | .error x, .error y =>
    if h : x = y then isTrue (by rw [h])
    else isFalse (fun hc => h (by cases hc; rfl))
  | .ok _, .error _ => isFalse (fun hc => Except.noConfusion hc)
  | .error _, .ok _ => isFalse (fun hc => Except.noConfusion hc)

/-- Whether a `CmdError` is an error other than `CouldNotStart`. -/
def notCNS (e : CmdError) : Bool :=
  match e with
  | .CouldNotStart _ => false
  | _ => true

/-- One line's effect on the boot time a /proc/stat text assigns. -/
def simpleBootStep (acc : Nat) (l : List Char) : Nat :=
  if startsWithS "btime " l then
    match parseUsize ((splitWs l).getD 1 []) with
    | some v => v
    | none => acc
  else acc

/-- The boot time a /proc/stat text assigns: the field after the last
parseable `btime ` line, 0 when there is none (matching the loop of
`get_process_information`, which errs on an unparseable `btime` line). -/
def simpleBootOf (cs : List Char) : Nat :=
  (splitNl cs).foldl simpleBootStep 0

/-- A `MemTotal:`/`MemAvailable:`-shaped /proc/meminfo line the sampler
rejects: not exactly three fields, no trailing `kB`, or a non-numeric
value. -/
def meminfoMalformed (l : List Char) : Prop :=
  (splitWs l).length ≠ 3 ∨ (splitWs l).getD 2 [] ≠ "kB".data ∨
    parseUsize ((splitWs l).getD 1 []) = none

/-- Field `ix` (zero-based, after the comm) of a pid's /proc/pid/stat line,
parsed as an unsigned number. -/
def pidStatNum (sys : SystemAPI) (pid ix : Nat) : Option Nat :=
  match sys.pidStat pid with
  | none => none
  | some line =>
    match commSplit line.data with
    | none => none
    | some pr => parseUsize ((splitWs pr.2).getD ix [])

/-- A pid's resident set size in KiB: /proc/pid/statm field 1 times the page
size. -/
def pidRssKib (sys : SystemAPI) (pid : Nat) : Option Nat :=
  match sys.pidStatm pid with
  | none => none
  | some s => (parseUsize ((splitWs s.data).getD 1 [])).map (· * sys.pageSizeKib)

/-- The clamped real-time divisor of the cpu-percentage formula:
`max 1 (now_ticks − boot_ticks − starttime_ticks)`. -/
def realtimeTicksOf (sys : SystemAPI) (boot startTicks : Nat) : ℚ :=
  max 1 ((sys.nowSecs : ℚ) * (sys.clkTck : ℚ) -
    ((boot : ℚ) * (sys.clkTck : ℚ) + (startTicks : ℚ)))

/-- The percentage facts claimed for every sampled process: `cpu_pct` is the
uncapped one-decimal rounding of `(utime+stime)/realtime_ticks`, `mem_pct`
the 99.9-capped one-decimal rounding of `rss/memtotal`, the divisor is
clamped at 1, and both percentages are non-negative. -/
def C2Post (sys : SystemAPI) (memtotalKib : Nat) (p : Process) : Prop :=
  ∃ s utime stime startTicks rssKib,
    sys.statFile = some s ∧
    pidStatNum sys p.pid 11 = some utime ∧
    pidStatNum sys p.pid 12 = some stime ∧
    pidStatNum sys p.pid 19 = some startTicks ∧
    pidRssKib sys p.pid = some rssKib ∧
    1 ≤ realtimeTicksOf sys (simpleBootOf s.data) startTicks ∧
    p.cpu_pct = ((round ((((utime : ℚ) + (stime : ℚ)) /
      realtimeTicksOf sys (simpleBootOf s.data) startTicks) * 1000) : ℤ) : ℚ) / 10 ∧
    p.mem_pct = min (((round ((rssKib : ℚ) * 1000 / (memtotalKib : ℚ)) : ℤ) : ℚ) / 10)
      (999 / 10) ∧
    0 ≤ p.cpu_pct ∧ 0 ≤ p.mem_pct ∧ p.mem_pct ≤ 999 / 10

/-- What holds of every process record `sampleOne` keeps: the stat line was
read and split, the state is not `X`, the claimed fields parsed, and the
percentage fields are the claimed roundings (with the zombie suffix on the
command when the state is `Z`). -/
def SampleInv (sys : SystemAPI) (bootTime memtotalKib pid : Nat) (p : Process) :
    Prop :=
  ∃ line pr utime stime startT rssKib,
    sys.pidStat pid = some line ∧
    commSplit line.data = some pr ∧
    (splitWs pr.2).getD 0 [] ≠ "X".data ∧
    parseUsize ((splitWs pr.2).getD 11 []) = some utime ∧
    parseUsize ((splitWs pr.2).getD 12 []) = some stime ∧
    parseUsize ((splitWs pr.2).getD 19 []) = some startT ∧
    pidRssKib sys pid = some rssKib ∧
    p.pid = pid ∧
    p.has_children = false ∧
    p.command = String.mk pr.1 ++
      (if (splitWs pr.2).getD 0 [] = "Z".data then " <defunct>" else "") ∧
    p.cpu_pct = ((round ((((utime : ℚ) + (stime : ℚ)) /
      realtimeTicksOf sys bootTime startT) * 1000) : ℤ) : ℚ) / 10 ∧
    p.mem_pct = min (((round ((rssKib : ℚ) * 1000 /
      (memtotalKib : ℚ)) : ℤ) : ℚ) / 10) (999 / 10)

/-- The GpuProcess the reconciliation claim prescribes for a pid on a
device: utilization of the device divided by the number of pids using it,
user from the table or the zombie placeholder. -/
def specGpuEntry (perDeviceInfo : List (ℚ × ℚ)) (perPidInfo : List (Nat × List Nat))
    (userByPid : Nat → Option (String × Nat)) (pid dev : Nat) : GpuProcess :=
  let nd : Nat := (perPidInfo.filter (fun pd => pd.2.contains dev)).length
  { device := some dev
    pid := pid
    user := match userByPid pid with
      | some (u, _) => u
      | none => "_zombie_" ++ Nat.repr pid
    uid := match userByPid pid with
      | some (_, i) => i
      | none => ZOMBIE_UID
    gpu_pct := (perDeviceInfo.getD dev (0, 0)).1 / (nd : ℚ)
    mem_pct := (perDeviceInfo.getD dev (0, 0)).2 / (nd : ℚ)
    mem_size_kib := 0
    command := "_noinfo_" }

/-- Whether a character list is a complete JSON number literal. -/
def isNumberLit (cs : List Char) : Bool :=
  match parseNumber cs with
  | some [] => true
  | _ => false

/-- Whether the input begins (after nothing) with a character that may
legitimately follow a JSON value in our outputs: end of input, `,`, `]` or
the closing brace. -/
def isCloserHead (cs : List Char) : Bool :=
  match cs with
  | [] => true
  | c :: _ => c = ',' || c = ']' || c = '\x7d'

mutual

/-- The trees for which the amended JSON-validity claim is stated: no
`Empty` node, no base-45-marked array, and every float's rendering a JSON
number literal. -/
def goodValue : Value → Bool
  | .A a => goodArray a
  | .O o => goodObject o
  | .S _ => true
  | .U _ => true
  | .I _ => true
  | .F r => isNumberLit r.data
  | .E => false

def goodArray : ArrayV → Bool
  | .mk elts b45 _ => !b45 && goodList elts

def goodObject : ObjectV → Bool
  | .mk fields => goodFields fields

def goodList : ValueList → Bool
  | .nil => true
  | .cons v tl => goodValue v && goodList tl

def goodFields : FieldList → Bool
  | .nil => true
  | .cons _ v tl => goodValue v && goodFields tl

end

/-- Fuel-indexed decimal rendering of a natural number, big-endian (the
reference shape for `Nat.repr`). -/
def natDecCharsAux : Nat → Nat → List Char
  | 0, _ => []
  | f + 1, n =>
    if n < 10 then [Nat.digitChar n]
    else natDecCharsAux f (n / 10) ++ [Nat.digitChar (n % 10)]

/-- Decimal digit characters of a natural number, big-endian. -/
def natDecChars (n : Nat) : List Char := natDecCharsAux (n + 1) n

/-- The integer/fraction/exponent tail of the number grammar (`parseNumber`
after the optional minus sign). -/
def numTail (cs : List Char) : Option (List Char) :=
  match parseIntPart cs with
  | none => none
  | some r =>
    match parseFracPart r with
    | none => none
    | some r2 => parseExpPart r2

mutual

/-- Structural depth of a value tree: a recursion-fuel bound for the JSON
recogniser. -/
def depthV : Value → Nat
  | .A (.mk elts _ _) => depthL elts + 1
  | .O (.mk fields) => depthF fields + 1
  | .S _ => 1
  | .U _ => 1
  | .I _ => 1
  | .F _ => 1
  | .E => 1

def depthL : ValueList → Nat
  | .nil => 1
  | .cons v tl => max (depthV v) (depthL tl) + 1

def depthF : FieldList → Nat
  | .nil => 1
  | .cons _ v tl => max (depthV v) (depthF tl) + 1

end

/-! ## Concrete fixtures for the seed scenarios and witnesses -/

/-- A banner row of `n` equals signs, as in the rocm-smi Concise Info
frame. -/
def eqRow (n : Nat) : String := String.mk (List.replicate n '=')

/-- The rocm-smi text-mode Concise Info sample of scenario S1 (from the
repository's own test). -/
def amdConciseText : String :=
  "\n" ++ eqRow 33 ++ " Concise Info " ++ eqRow 33 ++
  "\nGPU  Temp (DieEdge)  AvgPwr  SCLK     MCLK    Fan     Perf  PwrCap  VRAM%  GPU%\n0    53.0c           220.0W  1576Mhz  945Mhz  10.98%  auto  220.0W   57%   99%\n1    26.0c           3.0W    852Mhz   167Mhz  9.41%   auto  220.0W    5%   63%\n" ++
  eqRow 80 ++ "\n"

/-- The user table of scenario S1: pid 28156 is bob, uid 1001. -/
def s1Users : Nat → Option (String × Nat) :=
  fun p => if p = 28156 then some ("bob", 1001) else none

/-- /proc/4018/stat content of the repository's sampler tests (state R). -/
def statLine4018 : String :=
  "4018 (firefox) S 2190 2189 2189 0 -1 4194560 19293188 3117638 1823 557 51361 15728 5390 2925 20 0 187 0 16400 5144358912 184775 18446744073709551615 94466859782144 94466860597976 140720852341888 0 0 0 0 4096 17663 0 0 0 17 4 0 0 0 0 0 94466860605280 94466860610840 94466863497216 140720852350777 140720852350820 140720852350820 140720852357069 0"

/-- /proc/4019/stat content: same process but in state Z (zombie). -/
def statLine4019 : String :=
  "4019 (firefox) Z 2190 2189 2189 0 -1 4194560 19293188 3117638 1823 557 51361 15728 5390 2925 20 0 187 0 16400 5144358912 184775 18446744073709551615 94466859782144 94466860597976 140720852341888 0 0 0 0 4096 17663 0 0 0 17 4 0 0 0 0 0 94466860605280 94466860610840 94466863497216 140720852350777 140720852350820 140720852350820 140720852357069 0"

/-- /proc/4020/stat content: state X (dead). -/
def statLine4020 : String :=
  "4020 (python3) X 0 -1 -1 0 -1 4243524 0 0 0 0 0 0 0 0 20 0 0 0 10643829 0 0 0 0 0 0 0 0 0 0 0 0 0 0 0 17 3 0 0 0 0 0 0 0 0 0 0 0 0 0"

/-- The mock system of scenario S5 (pids 4018 R, 4019 Z, 4020 X), with the
/proc/stat and statm/status bodies of the repository's tests. -/
def sysS5 : SystemAPI :=
  { clkTck := 100
    pageSizeKib := 4
    nowSecs := 0
    userByUid := fun u => if u = 1000 then some "zappa" else none
    statFile := some "cpu 10 20 30 40 50 60 70\ncpu0 100 200 300 400 500 600 700\nbtime 1698303295"
    meminfoFile := some "MemTotal:       16093776 kB"
    pidList := some [(4018, 1000), (4019, 1000), (4020, 1000)]
    pidStat := fun p =>
      if p = 4018 then some statLine4018
      else if p = 4019 then some statLine4019
      else if p = 4020 then some statLine4020
      else none
    pidStatm := fun _ => some "1255967 185959 54972 200 0 316078 0"
    pidStatus := fun _ => some "RssAnon: 12345 kB" }

/-- The process record the sampler produces for pid 4018 of `sysS5` (with
`now = 0` the clamp fires and the uncapped cpu percentage is huge). -/
def procS5_4018 : Process :=
  { pid := 4018
    ppid := 2190
    pgrp := 2189
    uid := 1000
    user := "zappa"
    cpu_pct := 6708900
    mem_pct := 23 / 5
    cputime_sec := 754
    mem_size_kib := 1264312
    rssanon_kib := 12345
    command := "firefox"
    has_children := false }

/-- The process record the sampler produces for pid 4019 of `sysS5`: the
zombie twin of pid 4018, with the defunct suffix. -/
def procS5_4019 : Process :=
  { pid := 4019
    ppid := 2190
    pgrp := 2189
    uid := 1000
    user := "zappa"
    cpu_pct := 6708900
    mem_pct := 23 / 5
    cputime_sec := 754
    mem_size_kib := 1264312
    rssanon_kib := 12345
    command := "firefox <defunct>"
    has_children := false }

/-- Everything after the closing parenthesis of `statLine4019`. -/
def statAfter4019 : String :=
  " Z 2190 2189 2189 0 -1 4194560 19293188 3117638 1823 557 51361 15728 5390 2925 20 0 187 0 16400 5144358912 184775 18446744073709551615 94466859782144 94466860597976 140720852341888 0 0 0 0 4096 17663 0 0 0 17 4 0 0 0 0 0 94466860605280 94466860610840 94466863497216 140720852350777 140720852350820 140720852350820 140720852357069 0"

/-- A single self-parenting process: pid 5 whose stat line reports ppid 5. -/
def sysSelfParent : SystemAPI :=
  { clkTck := 100
    pageSizeKib := 4
    nowSecs := 0
    userByUid := fun _ => none
    statFile := some "btime 7"
    meminfoFile := some "MemTotal: 1000 kB"
    pidList := some [(5, 0)]
    pidStat := fun p =>
      if p = 5 then
        some "5 (x) S 5 5 0 0 0 0 0 0 0 0 10 10 0 0 0 0 0 0 7 0 0 0"
      else none
    pidStatm := fun _ => some "10 10 0 0 0 10 0"
    pidStatus := fun _ => some "RssAnon: 5 kB" }

/-- A /proc/stat body whose `cpu` line has a non-numeric field at a summed
position. -/
def badCpuStat : String := "cpu  bad 2 3 4 5 6 7\nbtime 100"

/-- A /proc/stat body with no `btime` line at all. -/
def noBtimeStat : String := "cpu 1 2 3 4 5 6 7"

/-- A mock system around a given /proc/stat body, with everything else
trivial. -/
def sysWithStat (stat : String) : SystemAPI :=
  { clkTck := 100
    pageSizeKib := 4
    nowSecs := 0
    userByUid := fun _ => none
    statFile := some stat
    meminfoFile := some "MemTotal: 1000 kB"
    pidList := some []
    pidStat := fun _ => none
    pidStatm := fun _ => none
    pidStatus := fun _ => none }

/-- The array `[1, Empty, 2]` (no base-45, default separator): permitted by
the data model, `Empty` occurring only as an array element. -/
def emptyElemTree : Value :=
  .A (.mk (.cons (.U 1) (.cons .E (.cons (.U 2) .nil))) false ",")

/-- The snapshot-like object of the repository's `test_json`, without the
`Empty` element: a good tree for the amended JSON claim. -/
def jsonGoodTree : Value :=
  .O (.mk (.cons "o" (.O (.mk .nil))
    (.cons "a" (.A (.mk .nil false ","))
    (.cons "s" (.S "hello, \"sir\"")
    (.cons "u" (.U 123)
    (.cons "i" (.I (-12))
    (.cons "f" (.F "12.5")
     .nil)))))))

/-- The one-element array `["a|b"]` with separator `|`. -/
def csvArrA : ArrayV := .mk (.cons (.S "a|b") .nil) false "|"

/-- The two-element array `["a", "b"]` with separator `|`. -/
def csvArrB : ArrayV := .mk (.cons (.S "a") (.cons (.S "b") .nil)) false "|"

/-! # Theorems -/

unseal subsequentDigits natDigits45 chunks45

set_option maxRecDepth 100000

set_option allowUnsafeReducibility true

attribute [local semireducible] Rat.add Rat.mul Rat.div Rat.sub Rat.inv Rat.neg

/-! ## Helper lemmas: base-45 -/

theorem foldl_append_enc (f : Nat → List Char) (l : List Nat) :
    ∀ init : List Char,
      l.foldl (fun s x => s ++ f x) init = init ++ (l.map f).flatten := by
  induction l with
  | nil => intro init; simp
  | cons y ys ih =>
    intro init
    simp only [List.foldl_cons, List.map_cons, List.flatten_cons, ih]
    simp [List.append_assoc]

theorem encode_join (y : Nat) (ys : List Nat) :
    encodeCpuSecsBase45el (y :: ys) =
      (((ys.foldl min y) :: (y :: ys).map (· - ys.foldl min y)).map
        encodeU64Base45el).flatten := by
  simp only [encodeCpuSecsBase45el, foldl_append_enc]
  simp [Function.comp_def]

theorem foldlMin_le_init (l : List Nat) : ∀ a : Nat, l.foldl min a ≤ a := by
  induction l with
  | nil => intro a; simp
  | cons c tl ih =>
    intro a
    simp only [List.foldl_cons]
    exact le_trans (ih (min a c)) (min_le_left a c)

theorem foldlMin_le_mem (l : List Nat) :
    ∀ a x : Nat, x ∈ l → l.foldl min a ≤ x := by
  induction l with
  | nil => intro a x hx; cases hx
  | cons c tl ih =>
    intro a x hx
    simp only [List.foldl_cons]
    rcases List.mem_cons.mp hx with h | h
    · subst h
      exact le_trans (foldlMin_le_init tl (min a x)) (min_le_right a x)
    · exact ih (min a c) x h

theorem subsequentDigits_mem (x : Nat) :
    ∀ c ∈ subsequentDigits x, c ∈ SUBSEQUENT := by
  induction x using Nat.strong_induction_on with
  | _ x ih =>
    intro c hc
    rw [subsequentDigits] at hc
    by_cases hx : x = 0
    · simp [hx] at hc
    · simp only [hx, if_false] at hc
      rcases List.mem_cons.mp hc with h | h
      · subst h
        have hlt : x % BASE < 45 := Nat.mod_lt x (by simp [BASE])
        have : ∀ d, d < 45 → SUBSEQUENT.getD d ' ' ∈ SUBSEQUENT := by decide
        exact this _ hlt
      · exact ih (x / BASE) (Nat.div_lt_self (Nat.pos_of_ne_zero hx) (by simp [BASE])) c h

theorem subsequent_not_initial :
    ∀ c ∈ SUBSEQUENT, INITIAL.contains c = false := by decide

theorem initial_getD_contains :
    ∀ d, d < 45 → INITIAL.contains (INITIAL.getD d ' ') = true := by decide

theorem initial_getD_indexOf :
    ∀ d, d < 45 → INITIAL.indexOf (INITIAL.getD d ' ') = d := by decide

theorem subsequent_getD_indexOf :
    ∀ d, d < 45 → SUBSEQUENT.indexOf (SUBSEQUENT.getD d ' ') = d := by decide

theorem subsValue_subsequentDigits (y : Nat) :
    subsValue (subsequentDigits y) = y := by
  induction y using Nat.strong_induction_on with
  | _ y ih =>
    rw [subsequentDigits]
    by_cases hy : y = 0
    · simp [hy, subsValue]
    · simp only [hy, if_false, subsValue]
      have hlt : y % BASE < 45 := Nat.mod_lt y (by simp [BASE])
      rw [subsequent_getD_indexOf _ hlt,
        ih (y / BASE) (Nat.div_lt_self (Nat.pos_of_ne_zero hy) (by simp [BASE]))]
      exact Nat.mod_add_div y BASE

theorem chunkVal_encode (x : Nat) :
    chunkVal (INITIAL.getD (x % BASE) ' ') (subsequentDigits (x / BASE)) = x := by
  have hlt : x % BASE < 45 := Nat.mod_lt x (by simp [BASE])
  simp only [chunkVal, initial_getD_indexOf _ hlt, subsValue_subsequentDigits]
  exact Nat.mod_add_div x BASE

theorem takeWhile_dropWhile_append (p : Char → Bool) (l r : List Char)
    (hl : ∀ c ∈ l, p c = true)
    (hr : r = [] ∨ p (r.headD ' ') = false) :
    (l ++ r).takeWhile p = l ∧ (l ++ r).dropWhile p = r := by
  induction l with
  | nil =>
    simp only [List.nil_append]
    rcases hr with h | h
    · subst h; simp [List.takeWhile, List.dropWhile]
    · cases r with
      | nil => simp [List.takeWhile, List.dropWhile]
      | cons c tl =>
        simp only [List.headD_cons] at h
        simp [List.takeWhile, List.dropWhile, h]
  | cons c tl ih =>
    have hc : p c = true := hl c (List.mem_cons_self c tl)
    have ihr := ih (fun d hd => hl d (List.mem_cons_of_mem c hd))
    simp [List.takeWhile, List.dropWhile, hc, ihr.1, ihr.2]

theorem chunks45_encode_cons (x : Nat) (rest : List Char)
    (hrest : rest = [] ∨ INITIAL.contains (rest.headD ' ') = true) :
    chunks45 (encodeU64Base45el x ++ rest) =
      (chunks45 rest).map
        (fun tl => (INITIAL.getD (x % BASE) ' ', subsequentDigits (x / BASE)) :: tl) := by
  have hmod : x % BASE < 45 := Nat.mod_lt x (by simp [BASE])
  have hcontains := initial_getD_contains _ hmod
  have hsubs : ∀ c ∈ subsequentDigits (x / BASE),
      (fun d => !INITIAL.contains d) c = true := by
    intro c hc
    have h2 := subsequent_not_initial c (subsequentDigits_mem _ c hc)
    simp only [Bool.not_eq_true']
    exact h2
  have hrest2 : rest = [] ∨ (fun d => !INITIAL.contains d) (rest.headD ' ') = false := by
    rcases hrest with h | h
    · exact Or.inl h
    · right
      simp only [Bool.not_eq_false']
      exact h
  have hsplit := takeWhile_dropWhile_append (fun d => !INITIAL.contains d)
    (subsequentDigits (x / BASE)) rest hsubs hrest2
  simp only [encodeU64Base45el, List.cons_append]
  rw [chunks45]
  rw [if_pos hcontains, hsplit.1, hsplit.2]

theorem chunks45_flatten (ys : List Nat) :
    chunks45 ((ys.map encodeU64Base45el).flatten) =
      some (ys.map
        (fun y => (INITIAL.getD (y % BASE) ' ', subsequentDigits (y / BASE)))) := by
  induction ys with
  | nil => simp [chunks45]
  | cons y tl ih =>
    simp only [List.map_cons, List.flatten_cons]
    have hrest : (tl.map encodeU64Base45el).flatten = [] ∨
        INITIAL.contains (((tl.map encodeU64Base45el).flatten).headD ' ') = true := by
      cases tl with
      | nil => left; simp
      | cons t ttl =>
        right
        simp only [List.map_cons, List.flatten_cons, encodeU64Base45el,
          List.cons_append, List.headD_cons]
        exact initial_getD_contains _ (Nat.mod_lt t (by simp [BASE]))
    rw [chunks45_encode_cons y _ hrest, ih]
    simp

/-! ## Claim C4: the base-45 packed encoding -/

/-- C4: the base-45 packed encoding of a non-empty unsigned array emits
`encode(min)` followed by `encode(eᵢ − min)` for each element in order with
no separator; `encode` produces little-endian base-45 digits, the first from
the INITIAL alphabet and the rest from the SUBSEQUENT alphabet (both of
length 45); and `encode_cpu_secs_base45el([1,30,89,12]) = ")(t*1b"`. -/
theorem claim_C4 :
    (INITIAL.length = BASE ∧ SUBSEQUENT.length = BASE) ∧
    (∀ (xs : List Nat) (b : Nat), xs ≠ [] → xs.min? = some b →
      encodeCpuSecsBase45el xs =
        encodeU64Base45el b ++
          (xs.map (fun e => encodeU64Base45el (e - b))).flatten) ∧
    (∀ x : Nat, encodeU64Base45el x =
      match natDigits45 x with
      | [] => []
      | d :: ds =>
        INITIAL.getD d ' ' :: ds.map (fun e => SUBSEQUENT.getD e ' ')) ∧
    encodeCpuSecsBase45el [1, 30, 89, 12] = ")(t*1b".data := by
  refine ⟨⟨by decide, by decide⟩, ?_, ?_, by decide⟩
  · intro xs b hne hmin
    cases xs with
    | nil => exact absurd rfl hne
    | cons y ys =>
      have hb : ys.foldl min y = b := by
        simpa [List.min?] using hmin
      rw [encode_join]
      simp [hb, Function.comp_def]
  · intro x
    have main : ∀ x : Nat, subsequentDigits x =
        (if x = 0 then [] else
          (natDigits45 x).map (fun e => SUBSEQUENT.getD e ' ')) := by
      intro x
      induction x using Nat.strong_induction_on with
      | _ x ih =>
        rw [subsequentDigits]
        by_cases hx : x = 0
        · simp [hx]
        · simp only [hx, if_false]
          rw [natDigits45]
          by_cases hlt : x < BASE
          · have h0 : x / BASE = 0 := Nat.div_eq_of_lt hlt
            have hmod : x % BASE = x := Nat.mod_eq_of_lt hlt
            simp [hlt, h0, hmod, subsequentDigits]
          · have hdivpos : x / BASE ≠ 0 := by
              intro h
              exact hlt ((Nat.div_eq_zero_iff (by simp [BASE])).mp h)
            rw [ih (x / BASE)
              (Nat.div_lt_self (Nat.pos_of_ne_zero hx) (by simp [BASE]))]
            simp [hlt, hdivpos]
    rw [natDigits45, encodeU64Base45el]
    by_cases hlt : x < BASE
    · have h0 : x / BASE = 0 := Nat.div_eq_of_lt hlt
      have hmod : x % BASE = x := Nat.mod_eq_of_lt hlt
      simp [hlt, h0, hmod, subsequentDigits]
    · have hdivpos : x / BASE ≠ 0 := by
        intro h
        exact hlt ((Nat.div_eq_zero_iff (by simp [BASE])).mp h)
      rw [main (x / BASE)]
      simp [hlt, hdivpos]

/-- Witness for C4 at the concrete input of scenario S2. -/
theorem claim_C4_witness :
    encodeCpuSecsBase45el [1, 30, 89, 12] =
      encodeU64Base45el 1 ++
        ([1, 30, 89, 12].map (fun e => encodeU64Base45el (e - 1))).flatten :=
  claim_C4.2.1 [1, 30, 89, 12] 1 (by decide) (by decide)

/-! ## Claim C5: the encoding round-trips -/

/-- C5: decoding the base-45 packed encoding of any non-empty unsigned array
(splitting at INITIAL characters, valuing the residual SUBSEQUENT digits,
and adding the leading base back) recovers the array exactly. -/
theorem claim_C5 (xs : List Nat) (hne : xs ≠ []) :
    decodeBase45 (encodeCpuSecsBase45el xs) = some xs := by
  cases xs with
  | nil => exact absurd rfl hne
  | cons y ys =>
    rw [encode_join, decodeBase45]
    rw [chunks45_flatten (ys.foldl min y :: (y :: ys).map (· - ys.foldl min y))]
    simp only [List.map_cons, chunkVal_encode]
    rw [List.map_map, List.map_map]
    have hhead : ys.foldl min y + (y - ys.foldl min y) = y :=
      Nat.add_sub_cancel' (foldlMin_le_init ys y)
    rw [hhead]
    refine congrArg (fun t => some (y :: t))
      ((List.map_congr_left ?_).trans (List.map_id ys))
    intro x hx
    simp only [Function.comp_apply, chunkVal_encode, id]
    exact Nat.add_sub_cancel' (foldlMin_le_mem ys y x hx)

/-- Witness for C5 at the concrete input of scenario S2. -/
theorem claim_C5_witness :
    decodeBase45 (encodeCpuSecsBase45el [1, 30, 89, 12]) = some [1, 30, 89, 12] :=
  claim_C5 [1, 30, 89, 12] (by decide)

/-! ## Claim C10: CSV array encoding is not injective -/

/-- C10: CSV elements are quoted only when they contain `,` or `"`, so an
element containing the array's custom separator is emitted unquoted; the
arrays `["a|b"]` and `["a","b"]`, both with separator `|`, are distinct but
have identical CSV encodings. -/
theorem claim_C10 :
    (∀ s : List Char, s.any (fun c => c = ',' || c = '"') = false →
      csvQuote s = s) ∧
    formatCsvArray csvArrA = formatCsvArray csvArrB ∧
    csvArrA ≠ csvArrB := by
  refine ⟨?_, by decide, by decide⟩
  intro s h
  simp [csvQuote, h]

/-- Witness for C10: the shared encoding's element is indeed unquoted. -/
theorem claim_C10_witness : csvQuote "a|b".data = "a|b".data :=
  claim_C10.1 "a|b".data (by decide)

/-! ## Helper lemmas: AMD device-count bookkeeping -/

theorem getD_set_ne (l : List Nat) (i j v : Nat) (h : i ≠ j) :
    (l.set i v).getD j 0 = l.getD j 0 := by
  simp [List.getD, List.getElem?_set, h]

theorem getD_set_eq (l : List Nat) (i v : Nat) (h : i < l.length) :
    (l.set i v).getD i 0 = v := by
  simp [List.getD, List.getElem?_set, h]

theorem bumpFold_length (devs : List Nat) :
    ∀ acc : List Nat,
      (devs.foldl (fun a dev => a.set dev (a.getD dev 0 + 1)) acc).length =
        acc.length := by
  induction devs with
  | nil => intro acc; rfl
  | cons dev rest ih =>
    intro acc
    simp only [List.foldl_cons, ih, List.length_set]

theorem bumpFold_getD (devs : List Nat) :
    ∀ (acc : List Nat) (d : Nat), d < acc.length →
      (devs.foldl (fun a dev => a.set dev (a.getD dev 0 + 1)) acc).getD d 0 =
        acc.getD d 0 + devs.count d := by
  induction devs with
  | nil => intro acc d _; simp
  | cons dev rest ih =>
    intro acc d hd
    simp only [List.foldl_cons]
    rw [ih (acc.set dev (acc.getD dev 0 + 1)) d (by simpa using hd)]
    by_cases hdev : dev = d
    · subst hdev
      rw [getD_set_eq acc dev _ hd]
      simp [List.count_cons]
      omega
    · rw [getD_set_ne acc dev d _ hdev]
      simp [List.count_cons, hdev]

theorem countFold_getD (P : List (Nat × List Nat)) :
    ∀ (acc : List Nat) (d : Nat), d < acc.length →
      ((P.foldl (fun acc p => p.2.foldl
          (fun a dev => a.set dev (a.getD dev 0 + 1)) acc) acc).getD d 0 =
        acc.getD d 0 + (P.map (fun pd => pd.2.count d)).sum) := by
  induction P with
  | nil => intro acc d _; simp
  | cons pd rest ih =>
    intro acc d hd
    simp only [List.foldl_cons, List.map_cons, List.sum_cons]
    rw [ih _ d (by rw [bumpFold_length]; exact hd), bumpFold_getD pd.2 acc d hd]
    omega

theorem count_eq_filter_ite (d : Nat) (devs : List Nat) (hnd : devs.Nodup) :
    devs.count d = if d ∈ devs then 1 else 0 := by
  by_cases h : d ∈ devs
  · rw [List.count_eq_one_of_mem hnd h]
    simp [h]
  · rw [List.count_eq_zero_of_not_mem h]
    simp [h]

theorem numProcesses_eq_filter (U : List (ℚ × ℚ)) (P : List (Nat × List Nat))
    (hnd : ∀ pd ∈ P, pd.2.Nodup) (d : Nat) (hd : d < U.length) :
    (amdCounts U P).getD d 0 =
      (P.filter (fun pd => pd.2.contains d)).length := by
  rw [amdCounts, countFold_getD P (List.replicate U.length 0) d (by simpa using hd)]
  have hrep : (List.replicate U.length (0 : Nat)).getD d 0 = 0 := by
    simp only [List.getD, List.get?_eq_getElem?, List.getElem?_replicate]
    split <;> rfl
  rw [hrep, Nat.zero_add]
  induction P with
  | nil => simp
  | cons pd rest ih =>
    have hpd := hnd pd (List.mem_cons_self pd rest)
    have ihr := ih (fun q hq => hnd q (List.mem_cons_of_mem pd hq))
    simp only [List.map_cons, List.sum_cons, List.filter_cons]
    rw [count_eq_filter_ite d pd.2 hpd, ihr]
    by_cases h : d ∈ pd.2
    · simp [h, Nat.add_comm]
    · simp [h]

/-! ## Claim C1: AMD attribution reconciliation -/

theorem amdEntry_eq_spec (U : List (ℚ × ℚ)) (P : List (Nat × List Nat))
    (userByPid : Nat → Option (String × Nat))
    (hnd : ∀ pd ∈ P, pd.2.Nodup)
    (hb : ∀ pd ∈ P, ∀ d ∈ pd.2, d < U.length)
    (pd : Nat × List Nat) (hpd : pd ∈ P) (dev : Nat) (hdev : dev ∈ pd.2) :
    amdCodeEntry U (amdCounts U P) userByPid pd.1 dev =
      specGpuEntry U P userByPid pd.1 dev := by
  have hcount := numProcesses_eq_filter U P hnd dev (hb pd hpd dev hdev)
  unfold amdCodeEntry specGpuEntry
  rw [hcount]
  cases userByPid pd.1 with
  | none => rfl
  | some u => rfl

/-- C1: for every per-device utilization table, pid→devices map (with
duplicate-free device lists, all devices in range) and user table, the AMD
reconciliation emits exactly one GpuProcess per (pid, device) pair — user
from the table or `_zombie_<pid>`, percentages the device utilization
divided by the number of pids using the device, `mem_size_kib = 0`, command
`_noinfo_` — sorted ascending by (device, pid); and on the S1 input it
produces exactly the three records of the spec. -/
theorem claim_C1 :
    (∀ (U : List (ℚ × ℚ)) (P : List (Nat × List Nat))
        (userByPid : Nat → Option (String × Nat)),
      (∀ pd ∈ P, pd.2.Nodup) →
      (∀ pd ∈ P, ∀ d ∈ pd.2, d < U.length) →
      (extractAmdInformation U P userByPid).Perm
          (P.flatMap (fun pd => pd.2.map (specGpuEntry U P userByPid pd.1))) ∧
        (extractAmdInformation U P userByPid).Sorted gpuLe) ∧
    extractAmdInformation [(99, 57), (63, 5)] [(28156, [0, 1]), (28154, [0])]
        s1Users =
      [{ device := some 0, pid := 28154, user := "_zombie_28154",
         uid := ZOMBIE_UID, gpu_pct := 99 / 2, mem_pct := 57 / 2,
         mem_size_kib := 0, command := "_noinfo_" },
       { device := some 0, pid := 28156, user := "bob", uid := 1001,
         gpu_pct := 99 / 2, mem_pct := 57 / 2, mem_size_kib := 0,
         command := "_noinfo_" },
       { device := some 1, pid := 28156, user := "bob", uid := 1001,
         gpu_pct := 63, mem_pct := 5, mem_size_kib := 0,
         command := "_noinfo_" }] := by
  constructor
  · intro U P userByPid hnd hb
    constructor
    · refine (List.perm_insertionSort gpuLe _).trans ?_
      have : P.flatMap (fun p =>
          p.2.map (amdCodeEntry U (amdCounts U P) userByPid p.1)) =
          P.flatMap (fun pd => pd.2.map (specGpuEntry U P userByPid pd.1)) := by
        simp only [List.flatMap_def]
        refine congrArg List.flatten (List.map_congr_left ?_)
        intro pd hpd
        exact List.map_congr_left
          (fun dev hdev => amdEntry_eq_spec U P userByPid hnd hb pd hpd dev hdev)
      exact this ▸ List.Perm.refl _
    · exact List.sorted_insertionSort gpuLe _
  · decide

/-- Witness for C1: the general reconciliation statement applied to the S1
input. -/
theorem claim_C1_witness :
    (extractAmdInformation [(99, 57), (63, 5)] [(28156, [0, 1]), (28154, [0])]
        s1Users).Perm
      ([(28156, [0, 1]), (28154, [0])].flatMap (fun pd =>
        pd.2.map (specGpuEntry [(99, 57), (63, 5)]
          [(28156, [0, 1]), (28154, [0])] s1Users pd.1))) ∧
    (extractAmdInformation [(99, 57), (63, 5)] [(28156, [0, 1]), (28154, [0])]
        s1Users).Sorted gpuLe :=
  claim_C1.1 [(99, 57), (63, 5)] [(28156, [0, 1]), (28154, [0])] s1Users
    (by decide) (by decide)

/-! ## Claim C8: AMD probe subprocess-error handling -/

/-- Counterexample for C8 as stated: a `Timeout` of the CSV invocation of
the per-device-utilization probe is not propagated — the probe falls back to
the bare `rocm-smi` invocation and can still return `Ok` data. -/
theorem claim_C8_counterexample :
    getRawPerDeviceInfo (.error (.Timeout "rocm-smi --showuse"))
        (.ok amdConciseText) = .ok [(99, 57), (63, 5)] ∧
    isError (getRawPerDeviceInfo (.error (.Timeout "rocm-smi --showuse"))
        (.ok amdConciseText)) = false := by
  constructor
  · decide
  · decide

/-- C8 amended: `CouldNotStart` yields `Ok []` for every invocation; a
non-`CouldNotStart` error of the per-pid invocation or of the fallback bare
invocation is propagated; a non-`CouldNotStart` error (or a CSV parse
failure) of the CSV invocation instead falls through to the bare
invocation. -/
theorem claim_C8 :
    (∀ (m : String) (r2 : Except CmdError String),
      getRawPerDeviceInfo (.error (.CouldNotStart m)) r2 = .ok []) ∧
    (∀ (e1 : CmdError) (r2 : Except CmdError String), notCNS e1 = true →
      getRawPerDeviceInfo (.error e1) r2 = perDeviceSecondStage r2) ∧
    (∀ (t : String) (r2 : Except CmdError String),
      isError (parseCsvConciseCommand t.data) = true →
      getRawPerDeviceInfo (.ok t) r2 = perDeviceSecondStage r2) ∧
    (∀ m : String, perDeviceSecondStage (.error (.CouldNotStart m)) = .ok []) ∧
    (∀ e : CmdError, notCNS e = true →
      perDeviceSecondStage (.error e) = .error (cmdErrorDebug e)) ∧
    (∀ m : String, getRawPerPidInfo (.error (.CouldNotStart m)) = .ok []) ∧
    (∀ e : CmdError, notCNS e = true →
      getRawPerPidInfo (.error e) = .error (cmdErrorDebug e)) := by
  refine ⟨fun m r2 => rfl, ?_, ?_, fun m => rfl, ?_, fun m => rfl, ?_⟩
  · intro e1 r2 h
    cases e1 with
    | CouldNotStart m => simp [notCNS] at h
    | Timeout m => rfl
    | NonZeroExit m => rfl
    | IoError m => rfl
  · intro t r2 h
    cases hp : parseCsvConciseCommand t.data with
    | ok info => rw [hp] at h; simp [isError] at h
    | error e =>
      show (match parseCsvConciseCommand t.data with
        | .ok info => (.ok info : Except String (List (ℚ × ℚ)))
        | .error _ => perDeviceSecondStage r2) = perDeviceSecondStage r2
      rw [hp]
  · intro e h
    cases e with
    | CouldNotStart m => simp [notCNS] at h
    | Timeout m => rfl
    | NonZeroExit m => rfl
    | IoError m => rfl
  · intro e h
    cases e with
    | CouldNotStart m => simp [notCNS] at h
    | Timeout m => rfl
    | NonZeroExit m => rfl
    | IoError m => rfl

/-- Witness for C8: concrete applications of the amended statement. -/
theorem claim_C8_witness :
    getRawPerDeviceInfo (.error (.CouldNotStart "no rocm-smi"))
        (.ok amdConciseText) = .ok [] ∧
    getRawPerDeviceInfo (.error (.NonZeroExit "2"))
        (.error (.Timeout "rocm-smi")) =
      perDeviceSecondStage (.error (.Timeout "rocm-smi")) ∧
    perDeviceSecondStage (.error (.Timeout "rocm-smi")) =
      .error "Timeout(rocm-smi)" ∧
    getRawPerPidInfo (.error (.CouldNotStart "no rocm-smi")) = .ok [] ∧
    getRawPerPidInfo (.error (.IoError "broken pipe")) =
      .error "IoError(broken pipe)" :=
  ⟨claim_C8.1 "no rocm-smi" (.ok amdConciseText),
   claim_C8.2.1 (.NonZeroExit "2") (.error (.Timeout "rocm-smi")) (by decide),
   claim_C8.2.2.2.2.1 (.Timeout "rocm-smi") (by decide),
   claim_C8.2.2.2.2.2.1 "no rocm-smi",
   claim_C8.2.2.2.2.2.2 (.IoError "broken pipe") (by decide)⟩

/-! ## Helper lemmas: the /proc sampler -/

theorem parseUsize_nil : parseUsize [] = none := rfl

theorem parseUsizeField_ok (fields : List (List Char)) (ix : Nat)
    (line : List Char) (file : String) (pid : Nat) (fieldname : String)
    (n : Nat) :
    parseUsizeField fields ix line file pid fieldname = .ok n ↔
      parseUsize (fields.getD ix []) = some n := by
  unfold parseUsizeField
  by_cases hix : ix ≥ fields.length
  · have hgetD : fields.getD ix [] = [] := List.getD_eq_default _ _ hix
    simp only [hix, if_true, hgetD, parseUsize_nil]
    constructor
    · intro h; cases h
    · intro h; cases h
  · simp only [hix, if_false]
    cases hp : parseUsize (fields.getD ix []) with
    | none =>
      constructor
      · intro h; cases h
      · intro h; cases h
    | some m =>
      constructor
      · intro h
        cases h
        rfl
      · intro h
        cases h
        rfl

theorem sampleOne_inv (sys : SystemAPI) (bootTime memtotalKib pid uid : Nat)
    (p : Process) (h : sampleOne sys bootTime memtotalKib pid uid = .ok (some p)) :
    SampleInv sys bootTime memtotalKib pid p := by
  unfold sampleOne at h
  cases hstat : sys.pidStat pid with
  | none => rw [hstat] at h; simp at h
  | some line =>
  rw [hstat] at h
  simp only [] at h
  cases hcomm : commSplit line.data with
  | none => rw [hcomm] at h; simp at h
  | some pr =>
  rw [hcomm] at h
  simp only [] at h
  by_cases hx : (splitWs pr.2).getD 0 [] = "X".data
  · rw [if_pos hx] at h; simp at h
  rw [if_neg hx] at h
  cases hppid : parseUsizeField (splitWs pr.2) 1 line.data "stat" pid "ppid" with
  | error e => rw [hppid] at h; simp at h
  | ok ppid =>
  rw [hppid] at h
  simp only [] at h
  cases hpgrp : parseUsizeField (splitWs pr.2) 2 line.data "stat" pid "pgrp" with
  | error e => rw [hpgrp] at h; simp at h
  | ok pgrp =>
  rw [hpgrp] at h
  simp only [] at h
  cases hutime : parseUsizeField (splitWs pr.2) 11 line.data "stat" pid "utime" with
  | error e => rw [hutime] at h; simp at h
  | ok utime =>
  rw [hutime] at h
  simp only [] at h
  cases hstime : parseUsizeField (splitWs pr.2) 12 line.data "stat" pid "stime" with
  | error e => rw [hstime] at h; simp at h
  | ok stime =>
  rw [hstime] at h
  simp only [] at h
  cases hcutime : parseUsizeField (splitWs pr.2) 13 line.data "stat" pid "cutime" with
  | error e => rw [hcutime] at h; simp at h
  | ok cutime =>
  rw [hcutime] at h
  simp only [] at h
  cases hcstime : parseUsizeField (splitWs pr.2) 14 line.data "stat" pid "cstime" with
  | error e => rw [hcstime] at h; simp at h
  | ok cstime =>
  rw [hcstime] at h
  simp only [] at h
  cases hstart : parseUsizeField (splitWs pr.2) 19 line.data "stat" pid "starttime" with
  | error e => rw [hstart] at h; simp at h
  | ok startT =>
  rw [hstart] at h
  simp only [] at h
  cases hstatm : sys.pidStatm pid with
  | none => rw [hstatm] at h; simp at h
  | some statm =>
  rw [hstatm] at h
  simp only [] at h
  cases hrss : parseUsizeField (splitWs statm.data) 1 statm.data "statm" pid
      "resident set size" with
  | error e => rw [hrss] at h; simp at h
  | ok rssPages =>
  rw [hrss] at h
  simp only [] at h
  cases hsize : parseUsizeField (splitWs statm.data) 5 statm.data "statm" pid
      "data size" with
  | error e => rw [hsize] at h; simp at h
  | ok sizePages =>
  rw [hsize] at h
  simp only [] at h
  cases hstatus : sys.pidStatus pid with
  | none => rw [hstatus] at h; simp at h
  | some status =>
  rw [hstatus] at h
  simp only [] at h
  cases hanon : (match firstRssAnonLine (splitNl status.data) with
      | none => (.ok 0 : Except String Nat)
      | some l =>
        if (splitWs l).length ≠ 3 ∨ (splitWs l).getD 2 [] ≠ "kB".data then
          .error ("Unexpected RssAnon in /proc/" ++ Nat.repr pid ++
            "/status: " ++ String.mk l)
        else
          parseUsizeField (splitWs l) 1 l "status" pid
            "private resident set size") with
  | error e => rw [hanon] at h; simp at h
  | ok rssanonKib =>
  rw [hanon] at h
  simp only [] at h
  cases h
  refine ⟨line, pr, utime, stime, startT,
    rssPages * sys.pageSizeKib, hstat, hcomm, hx,
    (parseUsizeField_ok _ _ _ _ _ _ _).mp hutime,
    (parseUsizeField_ok _ _ _ _ _ _ _).mp hstime,
    (parseUsizeField_ok _ _ _ _ _ _ _).mp hstart, ?_, rfl, rfl, ?_, rfl, rfl⟩
  · unfold pidRssKib
    rw [hstatm]
    simp only []
    rw [(parseUsizeField_ok _ _ _ _ _ _ _).mp hrss]
    rfl
  · by_cases hz : (splitWs pr.2).getD 0 [] = "Z".data
    · simp [hz]
    · simp [hz]

theorem insertEntry_mem (m : List (Nat × Process)) (k : Nat) (v : Process)
    (kp : Nat × Process) (h : kp ∈ insertEntry m k v) :
    kp ∈ m ∨ kp = (k, v) := by
  unfold insertEntry at h
  by_cases hany : m.any (fun kv => kv.1 = k) = true
  · rw [if_pos hany] at h
    rcases List.mem_map.mp h with ⟨kv, hkv, heq⟩
    by_cases hk : kv.1 = k
    · right
      rw [← heq]
      simp [hk]
    · left
      rw [← heq]
      simpa [hk] using hkv
  · rw [if_neg hany] at h
    rcases List.mem_append.mp h with h2 | h2
    · exact Or.inl h2
    · right
      simpa using h2

theorem pidFold_mem (sys : SystemAPI) (b mt : Nat) :
    ∀ (pids : List (Nat × Nat)) (st : List (Nat × Process) × List Nat)
      (res : List (Nat × Process) × List Nat),
      List.foldlM (pidFoldStep sys b mt) st pids = .ok res →
      ∀ kp ∈ res.1, kp ∈ st.1 ∨
        ∃ uid p0, sampleOne sys b mt kp.1 uid = .ok (some p0) ∧ kp.2 = p0 := by
  intro pids
  induction pids with
  | nil =>
    intro st res hf kp hkp
    rw [List.foldlM_nil] at hf
    cases hf
    exact Or.inl hkp
  | cons pu rest ih =>
    intro st res hf kp hkp
    rw [List.foldlM_cons] at hf
    cases hs : sampleOne sys b mt pu.1 pu.2 with
    | error e =>
      unfold pidFoldStep at hf
      rw [hs] at hf
      exact Except.noConfusion hf
    | ok r =>
      unfold pidFoldStep at hf
      rw [hs] at hf
      cases r with
      | none =>
        simp only [Except.map, bind, Except.bind] at hf
        exact ih st res hf kp hkp
      | some p =>
        simp only [Except.map, bind, Except.bind] at hf
        rcases ih _ res hf kp hkp with hin | hex
        · rcases insertEntry_mem st.1 pu.1 p kp hin with hold | heq
          · exact Or.inl hold
          · right
            refine ⟨pu.2, p, ?_, ?_⟩
            · rw [heq]
              exact hs
            · rw [heq]
        · exact Or.inr hex

theorem startsWith_cpu_not_btime (l : List Char)
    (h : startsWithS "cpu" l = true) : startsWithS "btime " l = false := by
  cases l with
  | nil => simp [startsWithS, List.isPrefixOf] at h
  | cons c rest =>
    have h2 : (('c' == c) && List.isPrefixOf ['p', 'u'] rest) = true := h
    simp only [Bool.and_eq_true, beq_iff_eq] at h2
    have hc : c = 'c' := h2.1.symm
    subst hc
    show (('b' == 'c') && List.isPrefixOf ['t', 'i', 'm', 'e', ' '] rest) = false
    simp

theorem statLineStep_boot (tps : Nat) (st : Nat × Nat × List Nat)
    (l : List Char) (st2 : Nat × Nat × List Nat)
    (h : statLineStep tps st l = .ok st2) :
    st2.1 = simpleBootStep st.1 l := by
  unfold statLineStep at h
  unfold simpleBootStep
  by_cases hcpu : startsWithS "cpu" l = true
  · rw [if_pos hcpu] at h
    have hbt := startsWith_cpu_not_btime l hcpu
    simp only [hbt, Bool.false_eq_true, if_false]
    cases hsum : STAT_FIELDS.foldlM
        (fun sum i => (parseUsizeField (splitWs l) i l "stat" 0 "cpu").map
          (sum + ·)) 0 with
    | error e => rw [hsum] at h; simp at h
    | ok sum =>
      rw [hsum] at h
      simp only [] at h
      by_cases hsp : startsWithS "cpu " l = true
      · rw [if_pos hsp] at h
        cases h
        rfl
      · rw [if_neg hsp] at h
        cases hno : parseUsize (((splitWs l).getD 0 []).drop 3) with
        | none =>
          rw [hno] at h
          cases h
          rfl
        | some cpuNo =>
          rw [hno] at h
          simp only [] at h
          cases h
          rfl
  · rw [if_neg hcpu] at h
    by_cases hbt : startsWithS "btime " l = true
    · rw [if_pos hbt] at h
      rw [if_pos hbt]
      cases hb : parseUsizeField (splitWs l) 1 l "stat" 0 "btime" with
      | error e => rw [hb] at h; simp at h
      | ok b =>
        rw [hb] at h
        simp only [] at h
        cases h
        rw [(parseUsizeField_ok _ _ _ _ _ _ _).mp hb]
    · rw [if_neg hbt] at h
      rw [if_neg hbt]
      cases h
      rfl

theorem statFold_boot (tps : Nat) :
    ∀ (lines : List (List Char)) (st st2 : Nat × Nat × List Nat),
      List.foldlM (statLineStep tps) st lines = .ok st2 →
      st2.1 = lines.foldl simpleBootStep st.1 := by
  intro lines
  induction lines with
  | nil =>
    intro st st2 hf
    rw [List.foldlM_nil] at hf
    cases hf
    rfl
  | cons l rest ih =>
    intro st st2 hf
    rw [List.foldlM_cons] at hf
    cases hstep : statLineStep tps st l with
    | error e => rw [hstep] at hf; exact Except.noConfusion hf
    | ok st1 =>
      rw [hstep] at hf
      simp only [bind, Except.bind] at hf
      rw [List.foldl_cons, ← statLineStep_boot tps st l st1 hstep]
      exact ih st1 st2 hf

theorem sumFold_bad (fields : List (List Char)) (line : List Char) :
    ∀ (ixs : List Nat) (s : Nat),
      (∃ i ∈ ixs, parseUsize (fields.getD i []) = none) →
      ∃ e, List.foldlM
        (fun sum i => (parseUsizeField fields i line "stat" 0 "cpu").map
          (sum + ·)) s ixs = .error e := by
  intro ixs
  induction ixs with
  | nil =>
    intro s hbad
    rcases hbad with ⟨i, hi, _⟩
    cases hi
  | cons j rest ih =>
    intro s hbad
    rw [List.foldlM_cons]
    cases hj : parseUsizeField fields j line "stat" 0 "cpu" with
    | error e => exact ⟨e, rfl⟩
    | ok n =>
      have hjsome : parseUsize (fields.getD j []) = some n :=
        (parseUsizeField_ok _ _ _ _ _ _ _).mp hj
      rcases hbad with ⟨i, hi, hnone⟩
      rcases List.mem_cons.mp hi with hij | hirest
      · subst hij
        rw [hjsome] at hnone
        cases hnone
      · rcases ih (s + n) ⟨i, hirest, hnone⟩ with ⟨e, he⟩
        exact ⟨e, he⟩

theorem statLineStep_badCpu (tps : Nat) (st : Nat × Nat × List Nat)
    (l : List Char) (hcpu : startsWithS "cpu" l = true)
    (hbad : ∃ i ∈ STAT_FIELDS, parseUsize ((splitWs l).getD i []) = none) :
    ∃ e, statLineStep tps st l = .error e := by
  unfold statLineStep
  rw [if_pos hcpu]
  rcases sumFold_bad (splitWs l) l STAT_FIELDS 0 hbad with ⟨e, he⟩
  refine ⟨e, ?_⟩
  rw [he]

theorem statFold_badCpu (tps : Nat) :
    ∀ (lines : List (List Char)) (st : Nat × Nat × List Nat),
      (∃ l ∈ lines, startsWithS "cpu" l = true ∧
        ∃ i ∈ STAT_FIELDS, parseUsize ((splitWs l).getD i []) = none) →
      ∃ e, List.foldlM (statLineStep tps) st lines = .error e := by
  intro lines
  induction lines with
  | nil =>
    intro st hbad
    rcases hbad with ⟨l, hl, _⟩
    cases hl
  | cons l rest ih =>
    intro st hbad
    rw [List.foldlM_cons]
    cases hstep : statLineStep tps st l with
    | error e => exact ⟨e, rfl⟩
    | ok st1 =>
      rcases hbad with ⟨l2, hl2, hc, hb⟩
      rcases List.mem_cons.mp hl2 with heq | hrest
      · subst heq
        rcases statLineStep_badCpu tps st l2 hc hb with ⟨e, he⟩
        rw [hstep] at he
        cases he
      · rcases ih st1 ⟨l2, hrest, hc, hb⟩ with ⟨e, he⟩
        exact ⟨e, he⟩

theorem meminfoLineValue_bad (l : List Char) (hm : meminfoMalformed l) :
    ∃ e, meminfoLineValue l = .error e := by
  unfold meminfoLineValue
  by_cases hshape : (splitWs l).length ≠ 3 ∨ (splitWs l).getD 2 [] ≠ "kB".data
  · rw [if_pos hshape]
    exact ⟨_, rfl⟩
  · rw [if_neg hshape]
    rcases hm with h1 | h2 | h3
    · exact absurd (Or.inl h1) hshape
    · exact absurd (Or.inr h2) hshape
    · cases hv : parseUsizeField (splitWs l) 1 l "meminfo" 0
          (String.mk ((splitWs l).getD 0 [])) with
      | error e => exact ⟨e, rfl⟩
      | ok n =>
        have := (parseUsizeField_ok _ _ _ _ _ _ _).mp hv
        rw [h3] at this
        cases this

theorem memFold_bad :
    ∀ (lines : List (List Char)) (st : Nat × Nat),
      (∃ l ∈ lines, startsWithS "MemTotal: " l = true ∧ meminfoMalformed l) →
      ∃ e, List.foldlM meminfoStep st lines = .error e := by
  intro lines
  induction lines with
  | nil =>
    intro st hbad
    rcases hbad with ⟨l, hl, _⟩
    cases hl
  | cons l rest ih =>
    intro st hbad
    rw [List.foldlM_cons]
    cases hstep : meminfoStep st l with
    | error e => exact ⟨e, rfl⟩
    | ok st1 =>
      rcases hbad with ⟨l2, hl2, hc, hm⟩
      rcases List.mem_cons.mp hl2 with heq | hrest
      · subst heq
        rcases meminfoLineValue_bad l2 hm with ⟨e, he⟩
        unfold meminfoStep at hstep
        rw [if_pos hc, he] at hstep
        cases hstep
      · rcases ih st1 ⟨l2, hrest, hc, hm⟩ with ⟨e, he⟩
        exact ⟨e, he⟩

theorem memFold_total_absent :
    ∀ (lines : List (List Char)) (st st2 : Nat × Nat),
      (∀ l ∈ lines, startsWithS "MemTotal: " l = false) →
      List.foldlM meminfoStep st lines = .ok st2 →
      st2.1 = st.1 := by
  intro lines
  induction lines with
  | nil =>
    intro st st2 _ hf
    rw [List.foldlM_nil] at hf
    cases hf
    rfl
  | cons l rest ih =>
    intro st st2 habs hf
    rw [List.foldlM_cons] at hf
    cases hstep : meminfoStep st l with
    | error e => rw [hstep] at hf; exact Except.noConfusion hf
    | ok st1 =>
      rw [hstep] at hf
      simp only [bind, Except.bind] at hf
      have hl := habs l (List.mem_cons_self l rest)
      have h1 : st1.1 = st.1 := by
        unfold meminfoStep at hstep
        rw [hl] at hstep
        simp only [Bool.false_eq_true, if_false] at hstep
        by_cases hma : startsWithS "MemAvailable: " l = true
        · rw [if_pos hma] at hstep
          cases hv : meminfoLineValue l with
          | error e => rw [hv] at hstep; simp [Except.map] at hstep
          | ok v =>
            rw [hv] at hstep
            simp only [Except.map] at hstep
            cases hstep
            rfl
        · rw [if_neg hma] at hstep
          cases hstep
          rfl
      rw [ih st1 st2 (fun l2 hl2 => habs l2 (List.mem_cons_of_mem l hl2)) hf, h1]

theorem getPI_ok_inv (sys : SystemAPI) (mt : Nat)
    (m : List (Nat × Process)) (tot : Nat) (percpu : List Nat)
    (h : getProcessInformation sys mt = .ok (m, tot, percpu)) :
    ∃ s pids entries ppids,
      sys.statFile = some s ∧
      sys.pidList = some pids ∧
      List.foldlM (pidFoldStep sys (simpleBootOf s.data) mt) ([], []) pids =
        .ok (entries, ppids) ∧
      m = entries.map (fun kp =>
        (kp.1, { kp.2 with has_children := ppids.contains kp.2.pid })) := by
  unfold getProcessInformation at h
  by_cases htps : sys.clkTck = 0
  · rw [if_pos htps] at h
    exact Except.noConfusion h
  rw [if_neg htps] at h
  cases hsf : sys.statFile with
  | none => rw [hsf] at h; exact Except.noConfusion h
  | some stat_s =>
  rw [hsf] at h
  simp only [] at h
  cases hfold : List.foldlM (statLineStep sys.clkTck) (0, 0, [])
      (splitNl stat_s.data) with
  | error e => rw [hfold] at h; simp at h
  | ok st2 =>
  rw [hfold] at h
  simp only [] at h
  by_cases hboot : st2.1 = 0
  · rw [if_pos hboot] at h
    exact Except.noConfusion h
  rw [if_neg hboot] at h
  cases hpl : sys.pidList with
  | none => rw [hpl] at h; exact Except.noConfusion h
  | some pids =>
  rw [hpl] at h
  simp only [] at h
  cases hpf : List.foldlM (pidFoldStep sys st2.1 mt) ([], []) pids with
  | error e => rw [hpf] at h; simp at h
  | ok st3 =>
  rw [hpf] at h
  simp only [] at h
  have hb : st2.1 = simpleBootOf stat_s.data :=
    statFold_boot sys.clkTck (splitNl stat_s.data) (0, 0, []) st2 hfold
  rw [hb] at hpf
  cases h
  exact ⟨stat_s, pids, st3.1, st3.2, rfl, rfl, hpf, rfl⟩

theorem round_nonneg_rat (x : ℚ) (h : 0 ≤ x) : (0 : ℤ) ≤ round x := by
  rw [round_eq]
  have h2 : (0 : ℚ) ≤ x + 1 / 2 := by linarith
  exact Int.floor_nonneg.mpr h2

theorem proc_update_fields (q : Process) (b : Bool) :
    ({ q with has_children := b } : Process).cpu_pct = q.cpu_pct ∧
    ({ q with has_children := b } : Process).mem_pct = q.mem_pct ∧
    ({ q with has_children := b } : Process).pid = q.pid ∧
    ({ q with has_children := b } : Process).ppid = q.ppid ∧
    ({ q with has_children := b } : Process).command = q.command :=
  ⟨rfl, rfl, rfl, rfl, rfl⟩

/-! ## Claim C2: the percentage formulas -/

/-- C2: every sampled process's `cpu_pct` is the uncapped one-decimal
rounding of `(utime+stime)/realtime_ticks × 100%`, its `mem_pct` the
99.9-capped one-decimal rounding of `rss/memtotal`, with
`realtime_ticks = max 1 (now − boot − starttime)` in ticks, so both
percentages are non-negative even when `now < boot + starttime`. -/
theorem claim_C2 (sys : SystemAPI) (memtotalKib : Nat)
    (m : List (Nat × Process)) (tot : Nat) (percpu : List Nat)
    (h : getProcessInformation sys memtotalKib = .ok (m, tot, percpu)) :
    ∀ kp ∈ m, C2Post sys memtotalKib kp.2 := by
  intro kp hkp
  rcases getPI_ok_inv sys memtotalKib m tot percpu h with
    ⟨s, pids, entries, ppids, hsf, hpl, hpf, hm⟩
  rw [hm] at hkp
  rcases List.mem_map.mp hkp with ⟨kp0, hkp0, heq⟩
  rcases pidFold_mem sys (simpleBootOf s.data) memtotalKib pids ([], [])
      (entries, ppids) hpf kp0 hkp0 with hin | ⟨uid, p0, hs1, hp0⟩
  · cases hin
  rcases sampleOne_inv sys _ _ _ _ p0 hs1 with
    ⟨line, pr, utime, stime, startT, rssKib, hstat, hcomm, hx, hu, hst, hstt,
      hrss, hpid, hch, hcmd, hcpu, hmem⟩
  have hkp2 : kp.2 = { p0 with has_children := ppids.contains p0.pid } := by
    rw [← heq]
    simp only []
    rw [hp0]
  have hpidkp : kp.2.pid = kp0.1 := by
    rw [hkp2]
    exact hpid
  have hrt : (1 : ℚ) ≤ realtimeTicksOf sys (simpleBootOf s.data) startT :=
    le_max_left 1 _
  have hrtpos : (0 : ℚ) < realtimeTicksOf sys (simpleBootOf s.data) startT :=
    lt_of_lt_of_le one_pos hrt
  have hcpu2 : kp.2.cpu_pct = ((round ((((utime : ℚ) + (stime : ℚ)) /
      realtimeTicksOf sys (simpleBootOf s.data) startT) * 1000) : ℤ) : ℚ) / 10 := by
    rw [hkp2]
    exact hcpu
  have hmem2 : kp.2.mem_pct = min (((round ((rssKib : ℚ) * 1000 /
      (memtotalKib : ℚ)) : ℤ) : ℚ) / 10) (999 / 10) := by
    rw [hkp2]
    exact hmem
  have hcpunn : (0 : ℚ) ≤ kp.2.cpu_pct := by
    rw [hcpu2]
    have harg : (0 : ℚ) ≤ (((utime : ℚ) + (stime : ℚ)) /
        realtimeTicksOf sys (simpleBootOf s.data) startT) * 1000 := by
      apply mul_nonneg
      · exact div_nonneg (by positivity) (le_of_lt hrtpos)
      · norm_num
    have := round_nonneg_rat _ harg
    have hcast : (0 : ℚ) ≤ ((round ((((utime : ℚ) + (stime : ℚ)) /
        realtimeTicksOf sys (simpleBootOf s.data) startT) * 1000) : ℤ) : ℚ) := by
      exact_mod_cast this
    linarith
  have hmemA : (0 : ℚ) ≤ ((round ((rssKib : ℚ) * 1000 /
      (memtotalKib : ℚ)) : ℤ) : ℚ) / 10 := by
    have harg : (0 : ℚ) ≤ (rssKib : ℚ) * 1000 / (memtotalKib : ℚ) := by
      positivity
    have := round_nonneg_rat _ harg
    have hcast : (0 : ℚ) ≤ ((round ((rssKib : ℚ) * 1000 /
        (memtotalKib : ℚ)) : ℤ) : ℚ) := by
      exact_mod_cast this
    linarith
  refine ⟨s, utime, stime, startT, rssKib, hsf, ?_, ?_, ?_, ?_, hrt, hcpu2,
    hmem2, hcpunn, ?_, ?_⟩
  · unfold pidStatNum
    rw [hpidkp, hstat]
    simp only []
    rw [hcomm]
    exact hu
  · unfold pidStatNum
    rw [hpidkp, hstat]
    simp only []
    rw [hcomm]
    exact hst
  · unfold pidStatNum
    rw [hpidkp, hstat]
    simp only []
    rw [hcomm]
    exact hstt
  · rw [hpidkp]
    exact hrss
  · rw [hmem2]
    exact le_min hmemA (by norm_num)
  · rw [hmem2]
    exact min_le_right _ _

/-- Witness for C2 at scenario S5's pid 4018 (with `now = 0`, so the clamp
fires and the uncapped percentage is far above 100). -/
theorem claim_C2_witness : C2Post sysS5 16093776 procS5_4018 ∧
    (100 : ℚ) < procS5_4018.cpu_pct := by
  have hok : getProcessInformation sysS5 16093776 =
      .ok ([(4018, procS5_4018), (4019, procS5_4019)], 1, [19]) := by decide
  exact ⟨claim_C2 sysS5 16093776 _ _ _ hok (4018, procS5_4018) (by decide),
    by norm_num [procS5_4018]⟩

/-! ## Claim C3: dead processes dropped, zombies kept with suffix -/

/-- C3: a process whose stat state field is `X` never appears in the
returned map; a process in the map whose state field is `Z` has the kernel
comm plus `" <defunct>"` as its command; and on the S5 input the map is
exactly {4018 ↦ firefox, 4019 ↦ firefox <defunct>} with 4020 absent. -/
theorem claim_C3 :
    (∀ (sys : SystemAPI) (memtotalKib : Nat) (m : List (Nat × Process))
        (tot : Nat) (percpu : List Nat) (pid : Nat) (line : String)
        (pr : List Char × List Char) (p : Process),
      getProcessInformation sys memtotalKib = .ok (m, tot, percpu) →
      sys.pidStat pid = some line →
      commSplit line.data = some pr →
      (splitWs pr.2).getD 0 [] = "X".data →
      (pid, p) ∉ m) ∧
    (∀ (sys : SystemAPI) (memtotalKib : Nat) (m : List (Nat × Process))
        (tot : Nat) (percpu : List Nat) (pid : Nat) (line : String)
        (pr : List Char × List Char) (p : Process),
      getProcessInformation sys memtotalKib = .ok (m, tot, percpu) →
      (pid, p) ∈ m →
      sys.pidStat pid = some line →
      commSplit line.data = some pr →
      (splitWs pr.2).getD 0 [] = "Z".data →
      p.command = String.mk pr.1 ++ " <defunct>") ∧
    (getProcessInformation sysS5 16093776).map (fun r => r.1.map Prod.fst) =
      .ok [4018, 4019] ∧
    (getProcessInformation sysS5 16093776).map (fun r =>
      ((r.1.lookup 4018).map Process.command,
       (r.1.lookup 4019).map Process.command,
       (r.1.lookup 4020).map Process.command)) =
      .ok (some "firefox", some "firefox <defunct>", none) := by
  refine ⟨?_, ?_, by decide, by decide⟩
  · intro sys memtotalKib m tot percpu pid line pr p h hline hcommGiven hxGiven hmem
    rcases getPI_ok_inv sys memtotalKib m tot percpu h with
      ⟨s, pids, entries, ppids, hsf, hpl, hpf, hm⟩
    rw [hm] at hmem
    rcases List.mem_map.mp hmem with ⟨kp0, hkp0, heq⟩
    have hkey : kp0.1 = pid := congrArg Prod.fst heq
    rcases pidFold_mem sys (simpleBootOf s.data) memtotalKib pids ([], [])
        (entries, ppids) hpf kp0 hkp0 with hin | ⟨uid, p0, hs1, hp0⟩
    · cases hin
    rcases sampleOne_inv sys _ _ _ _ p0 hs1 with
      ⟨line2, pr2, _, _, _, _, hstat2, hcomm2, hx2, _⟩
    rw [hkey] at hstat2
    rw [hline] at hstat2
    cases hstat2
    rw [hcommGiven] at hcomm2
    cases hcomm2
    exact hx2 hxGiven
  · intro sys memtotalKib m tot percpu pid line pr p h hmem hline hcommGiven hzGiven
    rcases getPI_ok_inv sys memtotalKib m tot percpu h with
      ⟨s, pids, entries, ppids, hsf, hpl, hpf, hm⟩
    rw [hm] at hmem
    rcases List.mem_map.mp hmem with ⟨kp0, hkp0, heq⟩
    have hkey : kp0.1 = pid := congrArg Prod.fst heq
    have hval : ({ kp0.2 with
        has_children := ppids.contains kp0.2.pid } : Process) = p :=
      congrArg Prod.snd heq
    rcases pidFold_mem sys (simpleBootOf s.data) memtotalKib pids ([], [])
        (entries, ppids) hpf kp0 hkp0 with hin | ⟨uid, p0, hs1, hp0⟩
    · cases hin
    rcases sampleOne_inv sys _ _ _ _ p0 hs1 with
      ⟨line2, pr2, _, _, _, _, hstat2, hcomm2, _, _, _, _, _, _, _, hcmd, _⟩
    rw [hkey] at hstat2
    rw [hline] at hstat2
    cases hstat2
    rw [hcommGiven] at hcomm2
    cases hcomm2
    have hpcmd : p.command = p0.command := by
      rw [← hval, hp0]
    rw [hpcmd, hcmd, hzGiven]
    simp

/-- Witness for C3 at scenario S5's zombie pid 4019. -/
theorem claim_C3_witness :
    procS5_4019.command = String.mk "firefox".data ++ " <defunct>" := by
  have hok : getProcessInformation sysS5 16093776 =
      .ok ([(4018, procS5_4018), (4019, procS5_4019)], 1, [19]) := by decide
  exact claim_C3.2.1 sysS5 16093776 _ 1 [19] 4019 statLine4019
    ("firefox".data, statAfter4019.data) procS5_4019 hok (by decide)
    (by decide) (by decide) (by decide)

/-! ## Claim C7: has_children -/

theorem insertEntry_append (m : List (Nat × Process)) (k : Nat) (v : Process)
    (h : k ∉ m.map Prod.fst) : insertEntry m k v = m ++ [(k, v)] := by
  unfold insertEntry
  rw [if_neg]
  intro hany
  rcases List.any_eq_true.mp hany with ⟨kv, hkv, hk⟩
  exact h (List.mem_map.mpr ⟨kv, hkv, by simpa using hk⟩)

theorem pidFold_ppids (sys : SystemAPI) (b mt : Nat) :
    ∀ (pids : List (Nat × Nat)) (st res : List (Nat × Process) × List Nat),
      List.foldlM (pidFoldStep sys b mt) st pids = .ok res →
      (pids.map Prod.fst).Nodup →
      (∀ k ∈ st.1.map Prod.fst, k ∉ pids.map Prod.fst) →
      (∀ x, x ∈ st.2 ↔ ∃ kp ∈ st.1, kp.2.ppid = x) →
      ∀ x, x ∈ res.2 ↔ ∃ kp ∈ res.1, kp.2.ppid = x := by
  intro pids
  induction pids with
  | nil =>
    intro st res hf _ _ hinv
    rw [List.foldlM_nil] at hf
    cases hf
    exact hinv
  | cons pu rest ih =>
    intro st res hf hnd hfresh hinv
    rw [List.foldlM_cons] at hf
    cases hs : sampleOne sys b mt pu.1 pu.2 with
    | error e =>
      unfold pidFoldStep at hf
      rw [hs] at hf
      exact Except.noConfusion hf
    | ok r =>
      unfold pidFoldStep at hf
      rw [hs] at hf
      have hndc : (pu.1 :: rest.map Prod.fst).Nodup := by
        rw [← List.map_cons]
        exact hnd
      have hndrest : (rest.map Prod.fst).Nodup := (List.nodup_cons.mp hndc).2
      cases r with
      | none =>
        simp only [Except.map, bind, Except.bind] at hf
        refine ih st res hf hndrest ?_ hinv
        intro k hk
        exact fun hkrest =>
          hfresh k hk (by simp [hkrest])
      | some p =>
        simp only [Except.map, bind, Except.bind] at hf
        have hfreshk : pu.1 ∉ st.1.map Prod.fst := by
          intro hk
          exact hfresh pu.1 hk (by simp)
        rw [insertEntry_append st.1 pu.1 p hfreshk] at hf
        refine ih _ res hf hndrest ?_ ?_
        · intro k hk hkrest
          rcases List.mem_map.mp hk with ⟨kv, hkv, hkeq⟩
          rcases List.mem_append.mp hkv with hold | hnew
          · exact hfresh k (List.mem_map.mpr ⟨kv, hold, hkeq⟩) (by simp [hkrest])
          · have : kv = (pu.1, p) := by simpa using hnew
            rw [this] at hkeq
            have hpu : pu.1 ∈ rest.map Prod.fst := by
              rw [← hkeq] at hkrest
              simpa using hkrest
            have := (List.nodup_cons.mp hndc).1
            exact this hpu
        · intro x
          constructor
          · intro hx
            rcases List.mem_cons.mp hx with hx1 | hx2
            · exact ⟨(pu.1, p), by simp, hx1.symm⟩
            · rcases (hinv x).mp hx2 with ⟨kp, hkp, hkpp⟩
              exact ⟨kp, List.mem_append.mpr (Or.inl hkp), hkpp⟩
          · intro hx
            rcases hx with ⟨kp, hkp, hkpp⟩
            rcases List.mem_append.mp hkp with hold | hnew
            · exact List.mem_cons.mpr (Or.inr ((hinv x).mpr ⟨kp, hold, hkpp⟩))
            · have : kp = (pu.1, p) := by simpa using hnew
              rw [this] at hkpp
              exact List.mem_cons.mpr (Or.inl hkpp.symm)

/-- Counterexample for C7 as stated: a self-parenting process (stat reports
its own pid as ppid) gets `has_children = true` although no *other* sampled
process has it as parent — the map is exactly one record with
`pid = ppid = 5` and `has_children = true`. -/
theorem claim_C7_counterexample :
    (getProcessInformation sysSelfParent 1000).map (fun r =>
      r.1.map (fun kp => (kp.1, kp.2.pid, kp.2.ppid, kp.2.has_children))) =
      .ok [(5, 5, 5, true)] := by decide

/-- C7 amended: for every sampled process `p` of a snapshot whose enumerated
pids are distinct, `has_children` is true iff some sampled process in the
returned map — possibly `p` itself — has `ppid = p.pid`. -/
theorem claim_C7 (sys : SystemAPI) (memtotalKib : Nat)
    (m : List (Nat × Process)) (tot : Nat) (percpu : List Nat)
    (pids : List (Nat × Nat))
    (hpids : sys.pidList = some pids)
    (hnd : (pids.map Prod.fst).Nodup)
    (h : getProcessInformation sys memtotalKib = .ok (m, tot, percpu)) :
    ∀ kp ∈ m, (kp.2.has_children = true ↔ ∃ kq ∈ m, kq.2.ppid = kp.2.pid) := by
  intro kp hkp
  rcases getPI_ok_inv sys memtotalKib m tot percpu h with
    ⟨s, pids2, entries, ppids, hsf, hpl, hpf, hm⟩
  have hpids2 : pids = pids2 := by
    rw [hpids] at hpl
    exact Option.some.inj hpl
  subst hpids2
  have hinv := pidFold_ppids sys (simpleBootOf s.data) memtotalKib pids
    ([], []) (entries, ppids) hpf hnd (by intro k hk; cases hk)
    (by intro x; constructor
        · intro hx; cases hx
        · intro hx; rcases hx with ⟨kp1, hkp1, _⟩; cases hkp1)
  rw [hm] at hkp
  rcases List.mem_map.mp hkp with ⟨kp0, hkp0, heq⟩
  have hhc : kp.2.has_children = ppids.contains kp0.2.pid := by
    rw [← heq]
  have hpid : kp.2.pid = kp0.2.pid := by
    rw [← heq]
  rw [hhc, hpid]
  constructor
  · intro hc
    have hmem : kp0.2.pid ∈ ppids := List.elem_iff.mp hc
    rcases (hinv kp0.2.pid).mp hmem with ⟨kq0, hkq0, hkq0p⟩
    refine ⟨(kq0.1, { kq0.2 with has_children := ppids.contains kq0.2.pid }),
      ?_, ?_⟩
    · rw [hm]
      exact List.mem_map.mpr ⟨kq0, hkq0, rfl⟩
    · exact hkq0p
  · intro hx
    rcases hx with ⟨kq, hkq, hkqp⟩
    rw [hm] at hkq
    rcases List.mem_map.mp hkq with ⟨kq0, hkq0, hkqeq⟩
    have hppid : kq0.2.ppid = kp0.2.pid := by
      rw [← hkqeq] at hkqp
      exact hkqp
    exact List.elem_iff.mpr ((hinv kp0.2.pid).mpr ⟨kq0, hkq0, hppid⟩)

theorem claim_C7_witness :
    (∃ m tot percpu, getProcessInformation sysS5 16093776 =
        .ok (m, tot, percpu) ∧
      ∀ kp ∈ m, (kp.2.has_children = true ↔
        ∃ kq ∈ m, kq.2.ppid = kp.2.pid)) := by
  refine ⟨[(4018, procS5_4018), (4019, procS5_4019)], 1, [19], by decide, ?_⟩
  exact claim_C7 sysS5 16093776 _ 1 [19] [(4018, 1000), (4019, 1000), (4020, 1000)]
    (by decide) (by decide) (by decide)

/-! ## Claim C9: mandatory-input parse failures are fatal -/

/-- C9: parse failure of the mandatory inputs is always fatal: (1) a
/proc/stat line starting with "cpu" whose summed field 1,2,3,6 or 7 is
missing or non-numeric makes `get_process_information` return an error;
(2) a /proc/stat whose btime is absent or parses to zero makes it return
an error; (3) a /proc/meminfo whose MemTotal line is malformed or absent
makes `get_memory` return an error. -/
theorem claim_C9 :
    (∀ (sys : SystemAPI) (mt : Nat) (stat_s : String),
        sys.statFile = some stat_s →
        (∃ l ∈ splitNl stat_s.data, startsWithS "cpu" l = true ∧
          ∃ i ∈ STAT_FIELDS, parseUsize ((splitWs l).getD i []) = none) →
        isError (getProcessInformation sys mt) = true) ∧
    (∀ (sys : SystemAPI) (mt : Nat) (stat_s : String),
        sys.statFile = some stat_s →
        simpleBootOf stat_s.data = 0 →
        isError (getProcessInformation sys mt) = true) ∧
    (∀ s : String,
        ((∃ l ∈ splitNl s.data, startsWithS "MemTotal: " l = true ∧
            meminfoMalformed l) ∨
          (∀ l ∈ splitNl s.data, startsWithS "MemTotal: " l = false)) →
        isError (getMemory (some s)) = true) := by
  refine ⟨?_, ?_, ?_⟩
  · intro sys mt stat_s hsf hbad
    unfold getProcessInformation
    by_cases htps : sys.clkTck = 0
    · rw [if_pos htps]
      rfl
    · rcases statFold_badCpu sys.clkTck (splitNl stat_s.data) (0, 0, [])
        hbad with ⟨e, he⟩
      rw [if_neg htps, hsf]
      simp only []
      rw [he]
      rfl
  · intro sys mt stat_s hsf hb0
    unfold getProcessInformation
    by_cases htps : sys.clkTck = 0
    · rw [if_pos htps]
      rfl
    · rw [if_neg htps, hsf]
      simp only []
      cases hfold : (splitNl stat_s.data).foldlM (statLineStep sys.clkTck)
          (0, 0, []) with
      | error e => rfl
      | ok st2 =>
        obtain ⟨b, c, p⟩ := st2
        simp only []
        have hb := statFold_boot sys.clkTck (splitNl stat_s.data)
          (0, 0, []) (b, c, p) hfold
        have hbz : b = 0 := by
          have hb2 : b = List.foldl simpleBootStep 0 (splitNl stat_s.data) := hb
          rw [hb2]
          exact hb0
        rw [if_pos hbz]
        rfl
  · intro s hyp
    unfold getMemory
    simp only []
    cases hfold : (splitNl s.data).foldlM meminfoStep (0, 0) with
    | error e => rfl
    | ok st2 =>
      obtain ⟨tot, avail⟩ := st2
      rcases hyp with hbad | habs
      · exfalso
        rcases memFold_bad (splitNl s.data) (0, 0) hbad with ⟨e, he⟩
        rw [he] at hfold
        cases hfold
      · simp only []
        have htot : tot = 0 :=
          memFold_total_absent (splitNl s.data) (0, 0) (tot, avail) habs hfold
        rw [if_pos htot]
        rfl

theorem claim_C9_witness :
    isError (getProcessInformation (sysWithStat badCpuStat) 1000) = true ∧
    isError (getProcessInformation (sysWithStat noBtimeStat) 1000) = true ∧
    isError (getMemory (some "MemFree: 10 kB")) = true := by
  refine ⟨?_, ?_, ?_⟩
  · exact claim_C9.1 (sysWithStat badCpuStat) 1000 badCpuStat rfl (by decide)
  · exact claim_C9.2.1 (sysWithStat noBtimeStat) 1000 noBtimeStat rfl (by decide)
  · exact claim_C9.2.2 "MemFree: 10 kB" (Or.inr (by decide))

/-! ## Claim C6: JSON validity of the encoder output -/

theorem skipWs_not_ws (c : Char) (x : List Char) (h : isJsonWs c = false) :
    skipWs (c :: x) = c :: x := by
  simp [skipWs, List.dropWhile_cons, h]

theorem parseV_succ (f : Nat) (cs : List Char) :
    parseV (f + 1) cs =
      match skipWs cs with
      | '"' :: r => parseStringRest r
      | '[' :: r =>
        match skipWs r with
        | ']' :: r2 => some r2
        | _ => parseElems f r
      | '\x7b' :: r =>
        match skipWs r with
        | '\x7d' :: r2 => some r2
        | _ => parseMembers f r
      | 't' :: 'r' :: 'u' :: 'e' :: r => some r
      | 'f' :: 'a' :: 'l' :: 's' :: 'e' :: r => some r
      | 'n' :: 'u' :: 'l' :: 'l' :: r => some r
      | rest => parseNumber rest := rfl

theorem parseElems_succ (f : Nat) (cs : List Char) :
    parseElems (f + 1) cs =
      match parseV f cs with
      | some r =>
        match skipWs r with
        | ',' :: r2 => parseElems f r2
        | ']' :: r2 => some r2
        | _ => none
      | none => none := rfl

theorem parseMembers_succ (f : Nat) (cs : List Char) :
    parseMembers (f + 1) cs =
      match skipWs cs with
      | '"' :: r =>
        match parseStringRest r with
        | some r2 =>
          match skipWs r2 with
          | ':' :: r3 =>
            match parseV f r3 with
            | some r4 =>
              match skipWs r4 with
              | ',' :: r5 => parseMembers f r5
              | '\x7d' :: r5 => some r5
              | _ => none
            | none => none
          | _ => none
        | none => none
      | _ => none := rfl

theorem digit_facts (c : Char) (hc : isDigitChar c = true) :
    isJsonWs c = false ∧ c ≠ '"' ∧ c ≠ '[' ∧ c ≠ '\x7b' ∧ c ≠ 't' ∧
      c ≠ 'f' ∧ c ≠ 'n' ∧ c ≠ ']' ∧ c ≠ '\x7d' ∧ c ≠ '-' := by
  simp only [isDigitChar, Bool.and_eq_true, decide_eq_true_eq] at hc
  obtain ⟨h1, h2⟩ := hc
  refine ⟨?_, ?_, ?_, ?_, ?_, ?_, ?_, ?_, ?_, ?_⟩
  · simp only [isJsonWs, Bool.or_eq_false_iff, decide_eq_false_iff_not]
    refine ⟨⟨⟨fun h => ?_, fun h => ?_⟩, fun h => ?_⟩, fun h => ?_⟩ <;>
      (subst h; first
        | exact absurd h1 (by decide)
        | exact absurd h2 (by decide))
  all_goals
    intro h
    subst h
    first
      | exact absurd h1 (by decide)
      | exact absurd h2 (by decide)

theorem closer_cases (rest : List Char) (h : isCloserHead rest = true) :
    rest = [] ∨ (∃ t, rest = ',' :: t) ∨ (∃ t, rest = ']' :: t) ∨
      (∃ t, rest = '\x7d' :: t) := by
  cases rest with
  | nil => exact Or.inl rfl
  | cons c t =>
    simp only [isCloserHead, Bool.or_eq_true, decide_eq_true_eq] at h
    rcases h with (h | h) | h
    · exact Or.inr (Or.inl ⟨t, by rw [h]⟩)
    · exact Or.inr (Or.inr (Or.inl ⟨t, by rw [h]⟩))
    · exact Or.inr (Or.inr (Or.inr ⟨t, by rw [h]⟩))

theorem closer_dropWhile (rest : List Char) (h : isCloserHead rest = true) :
    List.dropWhile isDigitChar rest = rest := by
  rcases closer_cases rest h with h0 | ⟨t, h0⟩ | ⟨t, h0⟩ | ⟨t, h0⟩ <;> subst h0 <;> rfl

theorem closer_chain (rest : List Char) (h : isCloserHead rest = true) :
    parseFracPart rest = some rest ∧ parseExpPart rest = some rest := by
  rcases closer_cases rest h with h0 | ⟨t, h0⟩ | ⟨t, h0⟩ | ⟨t, h0⟩ <;> subst h0 <;>
    exact ⟨rfl, rfl⟩

theorem dropWhile_all_append (p : Char → Bool) :
    ∀ l : List Char, l.all p = true → ∀ r : List Char,
      List.dropWhile p (l ++ r) = List.dropWhile p r := by
  intro l
  induction l with
  | nil => intro _ r; rfl
  | cons c l ih =>
    intro h r
    simp only [List.all_cons, Bool.and_eq_true] at h
    rw [List.cons_append, List.dropWhile_cons, if_pos h.1]
    exact ih h.2 r

theorem dropWhile_digits_append (rest : List Char)
    (hrest : List.dropWhile isDigitChar rest = rest) :
    ∀ a : List Char, List.dropWhile isDigitChar (a ++ rest) =
      List.dropWhile isDigitChar a ++ rest := by
  intro a
  induction a with
  | nil => simpa using hrest
  | cons c a ih =>
    cases h : isDigitChar c with
    | true =>
      rw [List.cons_append, List.dropWhile_cons, if_pos h, List.dropWhile_cons, if_pos h]
      exact ih
    | false =>
      rw [List.cons_append, List.dropWhile_cons, if_neg (by simp [h]),
        List.dropWhile_cons, if_neg (by simp [h]), List.cons_append]

theorem digitChar_digit : ∀ n, n < 10 → isDigitChar (Nat.digitChar n) = true := by
  decide

theorem digitChar_ne_zero : ∀ n, n < 10 → 0 < n → Nat.digitChar n ≠ '0' := by
  decide

theorem hexDigit_hex : ∀ n, n < 16 → isHexChar (hexDigitChar n) = true := by
  decide

theorem natDecCharsAux_succ (f n : Nat) :
    natDecCharsAux (f + 1) n =
      if n < 10 then [Nat.digitChar n]
      else natDecCharsAux f (n / 10) ++ [Nat.digitChar (n % 10)] := rfl

theorem natDecCharsAux_all : ∀ f n : Nat, (natDecCharsAux f n).all isDigitChar = true := by
  intro f
  induction f with
  | zero => intro n; rfl
  | succ f ih =>
    intro n
    rw [natDecCharsAux_succ]
    by_cases h : n < 10
    · rw [if_pos h]
      simp [digitChar_digit n h]
    · rw [if_neg h, List.all_append, ih (n / 10)]
      simp [digitChar_digit (n % 10) (Nat.mod_lt _ (by norm_num))]

theorem natDecCharsAux_shape : ∀ f m : Nat, 0 < m → m < 10 ^ f →
    ∃ c cs, natDecCharsAux f m = c :: cs ∧ isDigitChar c = true ∧ c ≠ '0' ∧
      cs.all isDigitChar = true := by
  intro f
  induction f with
  | zero =>
    intro m hm hlt
    simp only [pow_zero] at hlt
    omega
  | succ f ih =>
    intro m hm hlt
    rw [natDecCharsAux_succ]
    by_cases h : m < 10
    · rw [if_pos h]
      exact ⟨Nat.digitChar m, [], rfl, digitChar_digit m h, digitChar_ne_zero m h hm, rfl⟩
    · rw [if_neg h]
      have h10 : 0 < m / 10 := Nat.div_pos (by omega) (by norm_num)
      have hlt10 : m / 10 < 10 ^ f := by
        rw [Nat.div_lt_iff_lt_mul (by norm_num : (0 : Nat) < 10)]
        calc m < 10 ^ (f + 1) := hlt
          _ = 10 ^ f * 10 := by rw [pow_succ]
      obtain ⟨c, cs, hc, hd, hz, hall⟩ := ih (m / 10) h10 hlt10
      refine ⟨c, cs ++ [Nat.digitChar (m % 10)], by rw [hc]; rfl, hd, hz, ?_⟩
      rw [List.all_append, hall]
      simp [digitChar_digit (m % 10) (Nat.mod_lt _ (by norm_num))]

theorem natDecChars_head (n : Nat) :
    ∃ c cs, natDecChars n = c :: cs ∧ isDigitChar c = true := by
  unfold natDecChars
  rw [natDecCharsAux_succ]
  by_cases h : n < 10
  · rw [if_pos h]
    exact ⟨_, _, rfl, digitChar_digit n h⟩
  · rw [if_neg h]
    obtain ⟨c, cs, hc, hd, _, _⟩ := natDecCharsAux_shape n (n / 10)
      (Nat.div_pos (by omega) (by norm_num))
      (lt_of_le_of_lt (Nat.div_le_self n 10) (Nat.lt_pow_self (by norm_num) n))
    exact ⟨c, cs ++ [Nat.digitChar (n % 10)], by rw [hc]; rfl, hd⟩

theorem toDigitsCore_succ (f n : Nat) (ds : List Char) :
    Nat.toDigitsCore 10 (f + 1) n ds =
      if n / 10 = 0 then (n % 10).digitChar :: ds
      else Nat.toDigitsCore 10 f (n / 10) ((n % 10).digitChar :: ds) := rfl

theorem toDigitsCore_eq : ∀ f n ds, Nat.toDigitsCore 10 f n ds = natDecCharsAux f n ++ ds := by
  intro f
  induction f with
  | zero => intro n ds; rfl
  | succ f ih =>
    intro n ds
    rw [toDigitsCore_succ, natDecCharsAux_succ]
    by_cases h : n < 10
    · have hdiv : n / 10 = 0 := Nat.div_eq_of_lt h
      rw [if_pos hdiv, if_pos h, Nat.mod_eq_of_lt h]
      rfl
    · have hdiv : ¬ n / 10 = 0 := by omega
      rw [if_neg hdiv, if_neg h, ih (n / 10)]
      simp [List.append_assoc]

theorem repr_eq_natDecChars (u : Nat) : (Nat.repr u).data = natDecChars u := by
  show Nat.toDigitsCore 10 (u + 1) u [] = natDecChars u
  rw [toDigitsCore_eq]
  simp [natDecChars]

set_option maxHeartbeats 2000000 in
theorem parseIntPart_char (c : Char) (r : List Char) :
    parseIntPart (c :: r) =
      if c = '0' then some r
      else if isDigitChar c then some (r.dropWhile isDigitChar) else none := by
  by_cases h0 : c = '0'
  · subst h0
    rw [if_pos rfl]
    rfl
  · rw [if_neg h0, parseIntPart.eq_def]
    split
    · rename_i heq; cases heq
    · rename_i heq
      injection heq with h1 _
      exact absurd h1 h0
    · rename_i heq
      injection heq with h1 h2
      subst h1
      subst h2
      rfl

theorem parseIntPart_natDec (n : Nat) (rest : List Char)
    (hrest : List.dropWhile isDigitChar rest = rest) :
    parseIntPart (natDecChars n ++ rest) = some rest := by
  unfold natDecChars
  rw [natDecCharsAux_succ]
  by_cases h : n < 10
  · rw [if_pos h]
    by_cases h0 : n = 0
    · subst h0
      show parseIntPart ('0' :: rest) = some rest
      rfl
    · rw [show [Nat.digitChar n] ++ rest = Nat.digitChar n :: rest from rfl]
      rw [parseIntPart_char, if_neg (digitChar_ne_zero n h (by omega)),
        if_pos (digitChar_digit n h)]
      rw [hrest]
  · rw [if_neg h]
    obtain ⟨c, cs, hc, hd, hz, hall⟩ := natDecCharsAux_shape n (n / 10)
      (Nat.div_pos (by omega) (by norm_num))
      (lt_of_le_of_lt (Nat.div_le_self n 10) (Nat.lt_pow_self (by norm_num) n))
    rw [hc]
    rw [show (c :: cs ++ [Nat.digitChar (n % 10)]) ++ rest =
      c :: (cs ++ ([Nat.digitChar (n % 10)] ++ rest)) from by simp]
    rw [parseIntPart_char, if_neg hz, if_pos hd]
    rw [dropWhile_all_append isDigitChar cs hall]
    rw [show [Nat.digitChar (n % 10)] ++ rest = Nat.digitChar (n % 10) :: rest from rfl]
    rw [List.dropWhile_cons, if_pos (digitChar_digit (n % 10) (Nat.mod_lt _ (by norm_num)))]
    rw [hrest]

theorem pn_neg (r : List Char) : parseNumber ('-' :: r) = numTail r := rfl

theorem pn_nil : parseNumber [] = none := rfl

set_option maxHeartbeats 2000000 in
theorem pn_notneg (c : Char) (r : List Char) (h : c ≠ '-') :
    parseNumber (c :: r) = numTail (c :: r) := by
  have hm : (match c :: r with | '-' :: r2 => r2 | r2 => r2) = c :: r := by
    split
    · rename_i heq
      injection heq with ha _
      exact absurd ha h
    · rfl
  rw [parseNumber.eq_def]
  simp only []
  rw [hm]
  rfl

theorem numTail_natDec (n : Nat) (rest : List Char) (hcl : isCloserHead rest = true) :
    numTail (natDecChars n ++ rest) = some rest := by
  unfold numTail
  rw [parseIntPart_natDec n rest (closer_dropWhile rest hcl)]
  simp only []
  rw [(closer_chain rest hcl).1]
  simp only []
  exact (closer_chain rest hcl).2

theorem parseNumber_natDec (n : Nat) (rest : List Char) (hcl : isCloserHead rest = true) :
    parseNumber (natDecChars n ++ rest) = some rest := by
  obtain ⟨c, cs, hc, hd⟩ := natDecChars_head n
  rw [hc, List.cons_append, pn_notneg c _ (digit_facts c hd).2.2.2.2.2.2.2.2.2,
    ← List.cons_append, ← hc]
  exact numTail_natDec n rest hcl

theorem isNumberLit_parseNumber (cs : List Char) (h : isNumberLit cs = true) :
    parseNumber cs = some [] := by
  unfold isNumberLit at h
  cases hpn : parseNumber cs with
  | none =>
    rw [hpn] at h
    exact Bool.noConfusion h
  | some r =>
    rw [hpn] at h
    cases r with
    | nil => rfl
    | cons a b => exact Bool.noConfusion h

theorem numlit_head (cs : List Char) (h : isNumberLit cs = true) :
    ∃ c t, cs = c :: t ∧ (c = '-' ∨ isDigitChar c = true) := by
  have hp := isNumberLit_parseNumber cs h
  cases cs with
  | nil =>
    rw [pn_nil] at hp
    exact Option.noConfusion hp
  | cons c t =>
    refine ⟨c, t, rfl, ?_⟩
    by_cases hc : c = '-'
    · exact Or.inl hc
    · right
      rw [pn_notneg c t hc] at hp
      unfold numTail at hp
      cases hip : parseIntPart (c :: t) with
      | none =>
        rw [hip] at hp
        exact Option.noConfusion hp
      | some r =>
        rw [parseIntPart_char] at hip
        by_cases h0 : c = '0'
        · subst h0
          decide
        · rw [if_neg h0] at hip
          by_cases hd : isDigitChar c = true
          · exact hd
          · rw [if_neg hd] at hip
            exact Option.noConfusion hip

theorem parseIntPart_append (rest : List Char) (hcl : isCloserHead rest = true) :
    ∀ cs out, parseIntPart cs = some out →
      parseIntPart (cs ++ rest) = some (out ++ rest) := by
  intro cs out h
  cases cs with
  | nil => exact Option.noConfusion h
  | cons c r =>
    by_cases h0 : c = '0'
    · subst h0
      have hr : out = r := by
        have : parseIntPart ('0' :: r) = some r := rfl
        rw [this] at h
        exact (Option.some.inj h).symm
      subst hr
      rfl
    · rw [parseIntPart_char, if_neg h0] at h
      by_cases hd : isDigitChar c = true
      · rw [if_pos hd] at h
        have hout : out = r.dropWhile isDigitChar := (Option.some.inj h).symm
        subst hout
        rw [List.cons_append, parseIntPart_char, if_neg h0, if_pos hd]
        rw [dropWhile_digits_append rest (closer_dropWhile rest hcl) r]
      · rw [if_neg hd] at h
        exact Option.noConfusion h

theorem pfp_dot (c2 : Char) (r2 : List Char) :
    parseFracPart ('.' :: c2 :: r2) =
      if isDigitChar c2 then some ((c2 :: r2).dropWhile isDigitChar) else none := rfl

set_option maxHeartbeats 2000000 in
theorem pfp_ne (c : Char) (r : List Char) (h : c ≠ '.') :
    parseFracPart (c :: r) = some (c :: r) := by
  rw [parseFracPart.eq_def]
  split
  · rename_i heq
    injection heq with ha _
    exact absurd ha h
  · rfl

theorem parseFracPart_append (rest : List Char) (hcl : isCloserHead rest = true) :
    ∀ cs out, parseFracPart cs = some out →
      parseFracPart (cs ++ rest) = some (out ++ rest) := by
  intro cs out h
  cases cs with
  | nil =>
    have hout : out = [] := (Option.some.inj h).symm
    subst hout
    exact (closer_chain rest hcl).1
  | cons c r =>
    by_cases hc : c = '.'
    · subst hc
      cases r with
      | nil => exact Option.noConfusion h
      | cons c2 r2 =>
        rw [pfp_dot] at h
        by_cases hd : isDigitChar c2 = true
        · rw [if_pos hd] at h
          have hout : out = (c2 :: r2).dropWhile isDigitChar := (Option.some.inj h).symm
          subst hout
          rw [show ('.' :: c2 :: r2) ++ rest = '.' :: c2 :: (r2 ++ rest) from rfl]
          rw [pfp_dot, if_pos hd]
          rw [show (c2 :: (r2 ++ rest)) = (c2 :: r2) ++ rest from rfl]
          rw [dropWhile_digits_append rest (closer_dropWhile rest hcl) (c2 :: r2)]
        · rw [if_neg hd] at h
          exact Option.noConfusion h
    · rw [pfp_ne c r hc] at h
      have hout : out = c :: r := (Option.some.inj h).symm
      subst hout
      rw [List.cons_append, pfp_ne c _ hc]

theorem pep_cons (c : Char) (r : List Char) :
    parseExpPart (c :: r) =
      if c = 'e' || c = 'E' then
        let r2 := match r with
          | s :: r3 => if s = '+' || s = '-' then r3 else s :: r3
          | [] => []
        match r2 with
        | d :: _ => if isDigitChar d then some (r2.dropWhile isDigitChar) else none
        | [] => none
      else some (c :: r) := rfl

theorem parseExpPart_append (rest : List Char) (hcl : isCloserHead rest = true) :
    ∀ cs out, parseExpPart cs = some out →
      parseExpPart (cs ++ rest) = some (out ++ rest) := by
  intro cs out h
  cases cs with
  | nil =>
    have hout : out = [] := (Option.some.inj h).symm
    subst hout
    exact (closer_chain rest hcl).2
  | cons c r =>
    rw [pep_cons] at h
    rw [List.cons_append, pep_cons]
    by_cases hce : (c = 'e' || c = 'E') = true
    · rw [if_pos hce] at h
      rw [if_pos hce]
      cases r with
      | nil => exact Option.noConfusion h
      | cons s r3 =>
        simp only [] at h
        rw [show (s :: r3) ++ rest = s :: (r3 ++ rest) from rfl]
        simp only []
        by_cases hs : (s = '+' || s = '-') = true
        · rw [if_pos hs] at h ⊢
          cases r3 with
          | nil => exact Option.noConfusion h
          | cons d t =>
            simp only [] at h
            rw [show (d :: t) ++ rest = d :: (t ++ rest) from rfl]
            simp only []
            by_cases hd : isDigitChar d = true
            · rw [if_pos hd] at h ⊢
              have hout : out = (d :: t).dropWhile isDigitChar := (Option.some.inj h).symm
              subst hout
              rw [show (d :: (t ++ rest)) = (d :: t) ++ rest from rfl]
              rw [dropWhile_digits_append rest (closer_dropWhile rest hcl) (d :: t)]
            · rw [if_neg hd] at h
              exact Option.noConfusion h
        · rw [if_neg hs] at h ⊢
          simp only [] at h ⊢
          by_cases hd : isDigitChar s = true
          · rw [if_pos hd] at h ⊢
            have hout : out = (s :: r3).dropWhile isDigitChar := (Option.some.inj h).symm
            subst hout
            rw [show (s :: (r3 ++ rest)) = (s :: r3) ++ rest from rfl]
            rw [dropWhile_digits_append rest (closer_dropWhile rest hcl) (s :: r3)]
          · rw [if_neg hd] at h
            exact Option.noConfusion h
    · rw [if_neg hce] at h
      rw [if_neg hce]
      have hout : out = c :: r := (Option.some.inj h).symm
      subst hout
      rfl

theorem numTail_append (rest : List Char) (hcl : isCloserHead rest = true)
    (cs : List Char) (h : numTail cs = some []) :
    numTail (cs ++ rest) = some rest := by
  unfold numTail at h ⊢
  cases hip : parseIntPart cs with
  | none =>
    rw [hip] at h
    exact Option.noConfusion h
  | some r1 =>
    rw [hip] at h
    simp only [] at h
    rw [parseIntPart_append rest hcl cs r1 hip]
    simp only []
    cases hfp : parseFracPart r1 with
    | none =>
      rw [hfp] at h
      exact Option.noConfusion h
    | some r2 =>
      rw [hfp] at h
      simp only [] at h
      rw [parseFracPart_append rest hcl r1 r2 hfp]
      simp only []
      have hep := parseExpPart_append rest hcl r2 [] h
      rw [List.nil_append] at hep
      exact hep

theorem parseNumber_append (rest : List Char) (hcl : isCloserHead rest = true)
    (cs : List Char) (h : parseNumber cs = some []) :
    parseNumber (cs ++ rest) = some rest := by
  cases cs with
  | nil =>
    rw [pn_nil] at h
    exact Option.noConfusion h
  | cons c r =>
    by_cases hc : c = '-'
    · subst hc
      rw [pn_neg] at h
      rw [List.cons_append, pn_neg]
      exact numTail_append rest hcl r h
    · rw [pn_notneg c r hc] at h
      rw [List.cons_append, pn_notneg c _ hc, ← List.cons_append]
      exact numTail_append rest hcl (c :: r) h

theorem and_true_split (a b : Bool) (h : (a && b) = true) : a = true ∧ b = true := by
  simp only [Bool.and_eq_true] at h
  exact h

set_option maxHeartbeats 2000000 in
theorem psr_plain (c : Char) (x : List Char) (h1 : c ≠ '"') (h2 : c ≠ '\\') :
    parseStringRest (c :: x) =
      if 32 ≤ c.toNat then parseStringRest x else none := by
  rw [parseStringRest.eq_def]
  split
  · rename_i heq
    cases heq
  · rename_i heq
    injection heq with ha _
    exact absurd ha h1
  · rename_i heq
    injection heq with ha _
    exact absurd ha h2
  · rename_i heq
    injection heq with ha hb
    subst ha
    subst hb
    rfl

set_option maxHeartbeats 4000000 in
theorem psr_quote : ∀ t rest : List Char,
    parseStringRest (jsonQuoteChars t ++ '"' :: rest) = some rest := by
  intro t
  induction t with
  | nil => intro rest; rfl
  | cons c r ih =>
    intro rest
    rw [show jsonQuoteChars (c :: r) =
      (if c = '"' then ['\\', '"']
       else if c = '\\' then ['\\', '\\']
       else if c.toNat < 32 then
         ['\\', 'u', '0', '0', hexDigitChar (c.toNat / 16), hexDigitChar (c.toNat % 16)]
       else [c]) ++ jsonQuoteChars r from rfl]
    by_cases h1 : c = '"'
    · rw [if_pos h1]
      rw [show (['\\', '"'] ++ jsonQuoteChars r) ++ '"' :: rest =
        '\\' :: '"' :: (jsonQuoteChars r ++ '"' :: rest) from by simp]
      rw [show parseStringRest ('\\' :: '"' :: (jsonQuoteChars r ++ '"' :: rest)) =
        parseStringRest (jsonQuoteChars r ++ '"' :: rest) from by
          rw [parseStringRest.eq_def]
          simp]
      exact ih rest
    · rw [if_neg h1]
      by_cases h2 : c = '\\'
      · rw [if_pos h2]
        rw [show (['\\', '\\'] ++ jsonQuoteChars r) ++ '"' :: rest =
          '\\' :: '\\' :: (jsonQuoteChars r ++ '"' :: rest) from by simp]
        rw [show parseStringRest ('\\' :: '\\' :: (jsonQuoteChars r ++ '"' :: rest)) =
          parseStringRest (jsonQuoteChars r ++ '"' :: rest) from by
            rw [parseStringRest.eq_def]
            simp]
        exact ih rest
      · rw [if_neg h2]
        by_cases h3 : c.toNat < 32
        · rw [if_pos h3]
          rw [show (['\\', 'u', '0', '0', hexDigitChar (c.toNat / 16),
              hexDigitChar (c.toNat % 16)] ++ jsonQuoteChars r) ++ '"' :: rest =
            '\\' :: 'u' :: '0' :: '0' :: hexDigitChar (c.toNat / 16) ::
              hexDigitChar (c.toNat % 16) :: (jsonQuoteChars r ++ '"' :: rest) from by simp]
          have hstep : parseStringRest ('\\' :: 'u' :: '0' :: '0' ::
              hexDigitChar (c.toNat / 16) :: hexDigitChar (c.toNat % 16) ::
              (jsonQuoteChars r ++ '"' :: rest)) =
              parseStringRest (jsonQuoteChars r ++ '"' :: rest) := by
            rw [parseStringRest.eq_def]
            simp [hexDigit_hex (c.toNat / 16) (by omega),
              hexDigit_hex (c.toNat % 16) (by omega),
              (by decide : isHexChar '0' = true)]
          rw [hstep]
          exact ih rest
        · rw [if_neg h3]
          rw [show ([c] ++ jsonQuoteChars r) ++ '"' :: rest =
            c :: (jsonQuoteChars r ++ '"' :: rest) from by simp]
          rw [psr_plain c _ h1 h2, if_pos (by omega)]
          exact ih rest

set_option maxHeartbeats 2000000 in
theorem parseV_default (f : Nat) (c : Char) (x : List Char)
    (hws : isJsonWs c = false) (h1 : c ≠ '"') (h2 : c ≠ '[') (h3 : c ≠ '\x7b')
    (h4 : c ≠ 't') (h5 : c ≠ 'f') (h6 : c ≠ 'n') :
    parseV (f + 1) (c :: x) = parseNumber (c :: x) := by
  rw [parseV_succ, skipWs_not_ws c x hws]
  split
  · rename_i heq; injection heq with ha _; exact absurd ha h1
  · rename_i heq; injection heq with ha _; exact absurd ha h2
  · rename_i heq; injection heq with ha _; exact absurd ha h3
  · rename_i heq; injection heq with ha _; exact absurd ha h4
  · rename_i heq; injection heq with ha _; exact absurd ha h5
  · rename_i heq; injection heq with ha _; exact absurd ha h6
  · rfl

set_option maxHeartbeats 2000000 in
theorem parseV_array_go (f : Nat) (c : Char) (x : List Char)
    (hws : isJsonWs c = false) (hc : c ≠ ']') :
    parseV (f + 1) ('[' :: c :: x) = parseElems f (c :: x) := by
  rw [parseV_succ]
  rw [show skipWs ('[' :: c :: x) = '[' :: c :: x from skipWs_not_ws _ _ (by decide)]
  simp only []
  rw [skipWs_not_ws c x hws]
  split
  · rename_i heq; injection heq with ha _; exact absurd ha hc
  · rfl

set_option maxHeartbeats 2000000 in
theorem parseV_object_go (f : Nat) (c : Char) (x : List Char)
    (hws : isJsonWs c = false) (hc : c ≠ '\x7d') :
    parseV (f + 1) ('\x7b' :: c :: x) = parseMembers f (c :: x) := by
  rw [parseV_succ]
  rw [show skipWs ('\x7b' :: c :: x) = '\x7b' :: c :: x from skipWs_not_ws _ _ (by decide)]
  simp only []
  rw [skipWs_not_ws c x hws]
  split
  · rename_i heq; injection heq with ha _; exact absurd ha hc
  · rfl

theorem depthV_pos (v : Value) : 1 ≤ depthV v := by
  cases v with
  | A a => cases a; exact Nat.le_add_left 1 _
  | O o => cases o; exact Nat.le_add_left 1 _
  | S s => exact le_refl 1
  | U u => exact le_refl 1
  | I i => exact le_refl 1
  | F r => exact le_refl 1
  | E => exact le_refl 1

theorem depthL_pos (l : ValueList) : 1 ≤ depthL l := by
  cases l with
  | nil => exact le_refl 1
  | cons v tl => exact Nat.le_add_left 1 _

theorem depthF_pos (fl : FieldList) : 1 ≤ depthF fl := by
  cases fl with
  | nil => exact le_refl 1
  | cons t v tl => exact Nat.le_add_left 1 _

theorem render_head (v : Value) (hg : goodValue v = true) :
    ∃ c t, renderJson v = c :: t ∧ isJsonWs c = false ∧ c ≠ ']' := by
  cases v with
  | A a =>
    obtain ⟨elts, b45, sep⟩ := a
    obtain ⟨hb45, hgl⟩ := and_true_split _ _ hg
    have hb : b45 = false := by
      cases b45 with
      | false => rfl
      | true => exact Bool.noConfusion hb45
    subst hb
    exact ⟨'[', renderJsonElems elts ++ [']'], rfl, by decide, by decide⟩
  | O o =>
    obtain ⟨fields⟩ := o
    exact ⟨'\x7b', renderJsonMembers fields ++ ['\x7d'], rfl, by decide, by decide⟩
  | S s =>
    exact ⟨'"', jsonQuoteChars s.data ++ ['"'], rfl, by decide, by decide⟩
  | U u =>
    obtain ⟨c, cs, hc, hd⟩ := natDecChars_head u
    have hf := digit_facts c hd
    exact ⟨c, cs,
      by rw [show renderJson (.U u) = (Nat.repr u).data from rfl, repr_eq_natDecChars, hc],
      hf.1, hf.2.2.2.2.2.2.2.1⟩
  | I i =>
    cases i with
    | ofNat m =>
      obtain ⟨c, cs, hc, hd⟩ := natDecChars_head m
      have hf := digit_facts c hd
      exact ⟨c, cs,
        by rw [show renderJson (.I (Int.ofNat m)) = (Nat.repr m).data from rfl,
          repr_eq_natDecChars, hc],
        hf.1, hf.2.2.2.2.2.2.2.1⟩
    | negSucc m =>
      exact ⟨'-', (Nat.repr (m + 1)).data, rfl, by decide, by decide⟩
  | F r =>
    have hnl : isNumberLit r.data = true := hg
    obtain ⟨c, t, hct, hcd⟩ := numlit_head r.data hnl
    rcases hcd with hcd | hcd
    · subst hcd
      exact ⟨'-', t, by rw [show renderJson (.F r) = r.data from rfl, hct], by decide,
        by decide⟩
    · have hf := digit_facts c hcd
      exact ⟨c, t, by rw [show renderJson (.F r) = r.data from rfl, hct], hf.1,
        hf.2.2.2.2.2.2.2.1⟩
  | E => exact absurd hg (by decide)

set_option maxHeartbeats 4000000 in
theorem renderParses : ∀ f : Nat,
    (∀ v : Value, goodValue v = true → depthV v ≤ f → ∀ rest : List Char,
      isCloserHead rest = true →
      parseV f (renderJson v ++ rest) = some rest) ∧
    (∀ l : ValueList, goodList l = true → l ≠ ValueList.nil → depthL l ≤ f →
      ∀ rest : List Char, isCloserHead rest = true →
      parseElems f (renderJsonElems l ++ ']' :: rest) = some rest) ∧
    (∀ fl : FieldList, goodFields fl = true → fl ≠ FieldList.nil → depthF fl ≤ f →
      ∀ rest : List Char, isCloserHead rest = true →
      parseMembers f (renderJsonMembers fl ++ '\x7d' :: rest) = some rest) := by
  intro f
  induction f with
  | zero =>
    refine ⟨fun v _ hd => absurd hd (by have := depthV_pos v; omega),
      fun l _ _ hd => absurd hd (by have := depthL_pos l; omega),
      fun fl _ _ hd => absurd hd (by have := depthF_pos fl; omega)⟩
  | succ f ih =>
    obtain ⟨ihV, ihL, ihF⟩ := ih
    refine ⟨?_, ?_, ?_⟩
    · intro v hg hd rest hcl
      cases v with
      | S s =>
        rw [show renderJson (.S s) ++ rest =
          '"' :: (jsonQuoteChars s.data ++ '"' :: rest) from by
            rw [show renderJson (.S s) =
              '"' :: (jsonQuoteChars s.data ++ ['"']) from rfl]
            simp]
        rw [show parseV (f + 1) ('"' :: (jsonQuoteChars s.data ++ '"' :: rest)) =
          parseStringRest (jsonQuoteChars s.data ++ '"' :: rest) from rfl]
        exact psr_quote s.data rest
      | U u =>
        obtain ⟨c, cs, hc, hdg⟩ := natDecChars_head u
        have hf := digit_facts c hdg
        rw [show renderJson (.U u) ++ rest = c :: (cs ++ rest) from by
          rw [show renderJson (.U u) = (Nat.repr u).data from rfl, repr_eq_natDecChars, hc]
          rfl]
        rw [parseV_default f c (cs ++ rest) hf.1 hf.2.1 hf.2.2.1 hf.2.2.2.1
          hf.2.2.2.2.1 hf.2.2.2.2.2.1 hf.2.2.2.2.2.2.1]
        rw [show c :: (cs ++ rest) = natDecChars u ++ rest from by rw [hc]; rfl]
        exact parseNumber_natDec u rest hcl
      | I i =>
        cases i with
        | ofNat m =>
          obtain ⟨c, cs, hc, hdg⟩ := natDecChars_head m
          have hf := digit_facts c hdg
          rw [show renderJson (.I (Int.ofNat m)) ++ rest = c :: (cs ++ rest) from by
            rw [show renderJson (.I (Int.ofNat m)) = (Nat.repr m).data from rfl,
              repr_eq_natDecChars, hc]
            rfl]
          rw [parseV_default f c (cs ++ rest) hf.1 hf.2.1 hf.2.2.1 hf.2.2.2.1
            hf.2.2.2.2.1 hf.2.2.2.2.2.1 hf.2.2.2.2.2.2.1]
          rw [show c :: (cs ++ rest) = natDecChars m ++ rest from by rw [hc]; rfl]
          exact parseNumber_natDec m rest hcl
        | negSucc m =>
          rw [show renderJson (.I (Int.negSucc m)) ++ rest =
            '-' :: ((Nat.repr (m + 1)).data ++ rest) from rfl]
          rw [parseV_default f '-' _ (by decide) (by decide) (by decide) (by decide)
            (by decide) (by decide) (by decide)]
          rw [show parseNumber ('-' :: ((Nat.repr (m + 1)).data ++ rest)) =
            numTail ((Nat.repr (m + 1)).data ++ rest) from rfl]
          rw [repr_eq_natDecChars]
          exact numTail_natDec (m + 1) rest hcl
      | F r =>
        have hnl : isNumberLit r.data = true := hg
        obtain ⟨c, t, hct, hcd⟩ := numlit_head r.data hnl
        have hpn : parseNumber (r.data ++ rest) = some rest :=
          parseNumber_append rest hcl r.data (isNumberLit_parseNumber r.data hnl)
        rw [show renderJson (.F r) ++ rest = r.data ++ rest from rfl]
        rw [hct, List.cons_append]
        rcases hcd with hcd | hcd
        · subst hcd
          rw [parseV_default f '-' _ (by decide) (by decide) (by decide) (by decide)
            (by decide) (by decide) (by decide)]
          rw [← List.cons_append, ← hct]
          exact hpn
        · have hf := digit_facts c hcd
          rw [parseV_default f c _ hf.1 hf.2.1 hf.2.2.1 hf.2.2.2.1 hf.2.2.2.2.1
            hf.2.2.2.2.2.1 hf.2.2.2.2.2.2.1]
          rw [← List.cons_append, ← hct]
          exact hpn
      | E => exact absurd hg (by decide)
      | A a =>
        obtain ⟨elts, b45, sep⟩ := a
        obtain ⟨hb45, hgl⟩ := and_true_split _ _ hg
        have hb : b45 = false := by
          cases b45 with
          | false => rfl
          | true => exact Bool.noConfusion hb45
        subst hb
        cases elts with
        | nil =>
          rw [show renderJson (.A (.mk .nil false sep)) ++ rest =
            '[' :: ']' :: rest from rfl]
          rfl
        | cons v tl =>
          have hdL : depthL (.cons v tl) ≤ f := by
            have hdv : depthV (.A (.mk (.cons v tl) false sep)) =
              depthL (.cons v tl) + 1 := rfl
            omega
          have hgv : goodValue v = true := (and_true_split _ _ hgl).1
          obtain ⟨c, t, hrend, hws, hnb⟩ := render_head v hgv
          have hE : ∃ t2, renderJsonElems (.cons v tl) = c :: t2 := by
            cases tl with
            | nil =>
              exact ⟨t, by
                rw [show renderJsonElems (.cons v .nil) = renderJson v from rfl, hrend]⟩
            | cons v2 tl2 =>
              refine ⟨t ++ ',' :: renderJsonElems (.cons v2 tl2), ?_⟩
              rw [show renderJsonElems (.cons v (.cons v2 tl2)) =
                renderJson v ++ ',' :: renderJsonElems (.cons v2 tl2) from rfl, hrend]
              rfl
          obtain ⟨t2, hE⟩ := hE
          rw [show renderJson (.A (.mk (.cons v tl) false sep)) ++ rest =
            '[' :: (renderJsonElems (.cons v tl) ++ ']' :: rest) from by
              rw [show renderJson (.A (.mk (.cons v tl) false sep)) =
                '[' :: (renderJsonElems (.cons v tl) ++ [']']) from rfl]
              simp]
          rw [hE, List.cons_append]
          rw [parseV_array_go f c (t2 ++ ']' :: rest) hws hnb]
          rw [← List.cons_append, ← hE]
          exact ihL (.cons v tl) hgl (by intro hcon; cases hcon) hdL rest hcl
      | O o =>
        obtain ⟨fields⟩ := o
        have hgf : goodFields fields = true := hg
        cases fields with
        | nil =>
          rw [show renderJson (.O (.mk .nil)) ++ rest =
            '\x7b' :: '\x7d' :: rest from rfl]
          rfl
        | cons tg v tl =>
          have hdF : depthF (.cons tg v tl) ≤ f := by
            have hdv : depthV (.O (.mk (.cons tg v tl))) =
              depthF (.cons tg v tl) + 1 := rfl
            omega
          rw [show renderJson (.O (.mk (.cons tg v tl))) ++ rest =
            '\x7b' :: (renderJsonMembers (.cons tg v tl) ++ '\x7d' :: rest) from by
              rw [show renderJson (.O (.mk (.cons tg v tl))) =
                '\x7b' :: (renderJsonMembers (.cons tg v tl) ++ ['\x7d']) from rfl]
              simp]
          have hM : ∃ t2, renderJsonMembers (.cons tg v tl) = '"' :: t2 := by
            cases tl with
            | nil => exact ⟨_, rfl⟩
            | cons tg2 v2 tl2 => exact ⟨_, rfl⟩
          obtain ⟨t2, hM⟩ := hM
          rw [hM, List.cons_append]
          rw [parseV_object_go f '"' (t2 ++ '\x7d' :: rest) (by decide) (by decide)]
          rw [← List.cons_append, ← hM]
          exact ihF (.cons tg v tl) hgf (by intro hcon; cases hcon) hdF rest hcl
    · intro l hgl hne hdl rest hcl
      cases l with
      | nil => exact absurd rfl hne
      | cons v tl =>
        obtain ⟨hgv, hgtl⟩ := and_true_split _ _ hgl
        have hm : max (depthV v) (depthL tl) ≤ f := by
          have h1 : depthL (.cons v tl) = max (depthV v) (depthL tl) + 1 := rfl
          omega
        have hdv : depthV v ≤ f := le_trans (le_max_left _ _) hm
        have hdtl : depthL tl ≤ f := le_trans (le_max_right _ _) hm
        rw [parseElems_succ]
        cases tl with
        | nil =>
          rw [show renderJsonElems (.cons v .nil) = renderJson v from rfl]
          rw [ihV v hgv hdv (']' :: rest) rfl]
          rfl
        | cons v2 tl2 =>
          rw [show renderJsonElems (.cons v (.cons v2 tl2)) ++ ']' :: rest =
            renderJson v ++ (',' :: (renderJsonElems (.cons v2 tl2) ++ ']' :: rest)) from by
              rw [show renderJsonElems (.cons v (.cons v2 tl2)) =
                renderJson v ++ ',' :: renderJsonElems (.cons v2 tl2) from rfl]
              simp]
          rw [ihV v hgv hdv (',' :: (renderJsonElems (.cons v2 tl2) ++ ']' :: rest)) rfl]
          show parseElems f (renderJsonElems (.cons v2 tl2) ++ ']' :: rest) = some rest
          exact ihL (.cons v2 tl2) hgtl (by intro hcon; cases hcon) hdtl rest hcl
    · intro fl hgf hne hdf rest hcl
      cases fl with
      | nil => exact absurd rfl hne
      | cons tg v tl =>
        obtain ⟨hgv, hgtl⟩ := and_true_split _ _ hgf
        have hm : max (depthV v) (depthF tl) ≤ f := by
          have h1 : depthF (.cons tg v tl) = max (depthV v) (depthF tl) + 1 := rfl
          omega
        have hdv : depthV v ≤ f := le_trans (le_max_left _ _) hm
        have hdtl : depthF tl ≤ f := le_trans (le_max_right _ _) hm
        rw [parseMembers_succ]
        cases tl with
        | nil =>
          rw [show renderJsonMembers (.cons tg v .nil) ++ '\x7d' :: rest =
            '"' :: (jsonQuoteChars tg.data ++ '"' ::
              (':' :: (renderJson v ++ '\x7d' :: rest))) from by
              rw [show renderJsonMembers (.cons tg v .nil) =
                '"' :: (jsonQuoteChars tg.data ++ '"' :: ':' :: renderJson v) from rfl]
              simp]
          show (match parseStringRest (jsonQuoteChars tg.data ++ '"' ::
              (':' :: (renderJson v ++ '\x7d' :: rest))) with
            | some r2 =>
              match skipWs r2 with
              | ':' :: r3 =>
                match parseV f r3 with
                | some r4 =>
                  match skipWs r4 with
                  | ',' :: r5 => parseMembers f r5
                  | '\x7d' :: r5 => some r5
                  | _ => none
                | none => none
              | _ => none
            | none => none) = some rest
          rw [psr_quote]
          show (match parseV f (renderJson v ++ '\x7d' :: rest) with
            | some r4 =>
              match skipWs r4 with
              | ',' :: r5 => parseMembers f r5
              | '\x7d' :: r5 => some r5
              | _ => none
            | none => none) = some rest
          rw [ihV v hgv hdv ('\x7d' :: rest) rfl]
          rfl
        | cons tg2 v2 tl2 =>
          rw [show renderJsonMembers (.cons tg v (.cons tg2 v2 tl2)) ++ '\x7d' :: rest =
            '"' :: (jsonQuoteChars tg.data ++ '"' :: (':' :: (renderJson v ++
              ',' :: (renderJsonMembers (.cons tg2 v2 tl2) ++ '\x7d' :: rest)))) from by
              rw [show renderJsonMembers (.cons tg v (.cons tg2 v2 tl2)) =
                ('"' :: (jsonQuoteChars tg.data ++ '"' :: ':' :: renderJson v)) ++
                  ',' :: renderJsonMembers (.cons tg2 v2 tl2) from rfl]
              simp]
          show (match parseStringRest (jsonQuoteChars tg.data ++ '"' ::
              (':' :: (renderJson v ++
                ',' :: (renderJsonMembers (.cons tg2 v2 tl2) ++ '\x7d' :: rest)))) with
            | some r2 =>
              match skipWs r2 with
              | ':' :: r3 =>
                match parseV f r3 with
                | some r4 =>
                  match skipWs r4 with
                  | ',' :: r5 => parseMembers f r5
                  | '\x7d' :: r5 => some r5
                  | _ => none
                | none => none
              | _ => none
            | none => none) = some rest
          rw [psr_quote]
          show (match parseV f (renderJson v ++
              ',' :: (renderJsonMembers (.cons tg2 v2 tl2) ++ '\x7d' :: rest)) with
            | some r4 =>
              match skipWs r4 with
              | ',' :: r5 => parseMembers f r5
              | '\x7d' :: r5 => some r5
              | _ => none
            | none => none) = some rest
          rw [ihV v hgv hdv
            (',' :: (renderJsonMembers (.cons tg2 v2 tl2) ++ '\x7d' :: rest)) rfl]
          show parseMembers f (renderJsonMembers (.cons tg2 v2 tl2) ++ '\x7d' :: rest) =
            some rest
          exact ihF (.cons tg2 v2 tl2) hgtl (by intro hcon; cases hcon) hdtl rest hcl

theorem parseV_badTail : ∀ f : Nat, parseV f [',', '2', ']'] = none := by
  intro f
  cases f with
  | zero => rfl
  | succ f => rfl

theorem parseElems_badTail : ∀ f : Nat, parseElems f [',', '2', ']'] = none := by
  intro f
  cases f with
  | zero => rfl
  | succ f =>
    rw [parseElems_succ, parseV_badTail f]

theorem parseElems_onesBad : ∀ f : Nat, parseElems f ['1', ',', ',', '2', ']'] = none := by
  intro f
  cases f with
  | zero => rfl
  | succ f =>
    rw [parseElems_succ]
    cases f with
    | zero => rfl
    | succ f2 =>
      rw [show parseV (f2 + 1) ['1', ',', ',', '2', ']'] = some [',', ',', '2', ']']
        from rfl]
      show parseElems (f2 + 1) [',', '2', ']'] = none
      exact parseElems_badTail (f2 + 1)

theorem parseV_counterList : ∀ f : Nat, parseV f ['[', '1', ',', ',', '2', ']'] = none := by
  intro f
  cases f with
  | zero => rfl
  | succ f =>
    show parseElems f ['1', ',', ',', '2', ']'] = none
    exact parseElems_onesBad f

/-- Counterexample for C6 as stated: the array `[1, Empty, 2]` is permitted
by the data model (`Empty` occurs only as an array element), yet the JSON
encoder renders it as `[1,,2]`, which no recursion depth makes the RFC 8259
recogniser accept. -/
theorem claim_C6_counterexample :
    renderJson emptyElemTree = "[1,,2]".data ∧
      ¬ IsValidJson (renderJson emptyElemTree) := by
  refine ⟨by decide, ?_⟩
  rintro ⟨fuel, hacc⟩
  rw [show renderJson emptyElemTree = ['[', '1', ',', ',', '2', ']'] from by decide] at hacc
  unfold jsonAccepts at hacc
  rw [parseV_counterList fuel] at hacc
  exact Bool.noConfusion hacc

/-- C6 amended: for every `good` value tree - no `Empty` node anywhere, no
base-45-marked array, and every float rendering a JSON number literal - the
JSON encoder output (the document up to its trailing newline) is a valid
JSON text per the RFC 8259 recogniser. -/
theorem claim_C6 (v : Value) (hg : goodValue v = true) :
    IsValidJson (renderJson v) := by
  refine ⟨depthV v, ?_⟩
  unfold jsonAccepts
  have h := (renderParses (depthV v)).1 v hg (le_refl _) [] rfl
  rw [List.append_nil] at h
  rw [h]
  rfl

theorem claim_C6_witness :
    goodValue jsonGoodTree = true ∧ IsValidJson (renderJson jsonGoodTree) :=
  ⟨by decide, claim_C6 jsonGoodTree (by decide)⟩

end Sonar
